import Mathlib

/-!
# Verification of the Str2D grid library

Shallow embedding of the `str2d` package (repository `pirsquared/Str2D`).

The repository ships two implementations of the two-dimensional-string
data type:

* the modern package class `Str2D` in `src/str2d/__init__.py`, whose data
  is a numpy structured array of cells `(char, alpha)` together with
  validated `halign`/`valign`/`fill` configuration.  This is the "Grid"
  of the specification (visibility flags, alignment remapping on
  transformations, validation at the construction boundary, `Str3D`
  stacks).  We embed it in namespace `Modern`.
* the legacy class `Str2D` in `src/str2d/str2d.py`, whose data is a
  tuple of strings normalised by `_norm_height`/`_norm_width`, and whose
  masking methods `layer`/`mask` are built on `str2d/utils.py`.  We embed
  it in namespace `Legacy`.

Machine integers do not occur (all numeric quantities are unbounded
Python ints); characters are embedded as `Char`, strings as `String` or
`List Char`, numpy structured arrays as `List (List Cell)` together with
the array's shape `(h, w)`, and fallible code returns `Option`/`Except`.
-/

namespace Modern

/-- A cell of the structured array `Str2D._dtype`: the `char` field
(`<U1`, a single character) and the `alpha` field (`int8`, used as a
0/1 visibility flag).  From `src/str2d/__init__.py`, `Str2D._dtype`. -/
structure Cell where
  char : Char
  alpha : Int
deriving DecidableEq, Repr

/-- Default cell used only to totalise out-of-range list indexing; numpy
access in the source is always in bounds, so no theorem depends on it. -/
def defCell : Cell := ⟨' ', 0⟩

/-- The modern `Str2D` object: the structured array `data` (with its
numpy shape `(h, w)` recorded explicitly, since a `(0, w)` array keeps
its width), and the `halign`/`valign`/`fill` configuration stored by
`Str2D.__init__`. -/
structure Grid where
  h : Nat
  w : Nat
  data : List (List Cell)
  halign : String
  valign : String
  fill : Cell
deriving DecidableEq, Repr

/-- Row `i` of the structured array. -/
def Grid.row (g : Grid) (i : Nat) : List Cell := g.data.getD i []

/-- Cell `(i, j)` of the structured array. -/
def Grid.cell (g : Grid) (i j : Nat) : Cell := (g.row i).getD j defCell

/-- Cell access on a bare data matrix. -/
def cellAt (d : List (List Cell)) (i j : Nat) : Cell :=
  (d.getD i []).getD j defCell

/-- Well-formedness: the list-of-lists really is a numpy array of shape
`(h, w)` — `h` rows, every row of length `w`.  numpy guarantees this by
construction; in the embedding it is an invariant. -/
def dataWF (h w : Nat) (d : List (List Cell)) : Prop :=
  d.length = h ∧ ∀ r ∈ d, r.length = w

instance (h w : Nat) (d : List (List Cell)) : Decidable (dataWF h w d) := by
  unfold dataWF; infer_instance

def Grid.WF (g : Grid) : Prop := dataWF g.h g.w g.data

instance (g : Grid) : Decidable g.WF := by unfold Grid.WF; infer_instance

/-- The valid horizontal alignments (`Str2D.validate_halign`). -/
def validHaligns : List String := ["left", "center", "right"]

/-- The valid vertical alignments (`Str2D.validate_valign`). -/
def validValigns : List String := ["top", "middle", "bottom"]

/-- A grid as produced by `Str2D.__init__`: well-formed data and
validated configuration (alignment tokens from the enumerations, fill
alpha 0 or 1; the fill character is a single character by the `Char`
type, mirroring dtype `<U1`). -/
def Grid.Valid (g : Grid) : Prop :=
  g.WF ∧ g.halign ∈ validHaligns ∧ g.valign ∈ validValigns ∧
    (g.fill.alpha = 0 ∨ g.fill.alpha = 1)

instance (g : Grid) : Decidable g.Valid := by unfold Grid.Valid; infer_instance

/-! ## Validation (`validate_fill`, `validate_halign`, `validate_valign`)

`Str2D.__init__` runs these three validators, in this order, before the
input data is parsed.  A failed validation is a raised `ValueError`,
embedded as `none`. -/
/-- The user-supplied `fill` argument of `Str2D.__init__`: `None`, a
string, or a `(char, alpha)` pair. -/
inductive FillSpec where
  | nofill : FillSpec
  | str (s : String) : FillSpec
  | pair (s : String) (a : Int) : FillSpec
deriving DecidableEq, Repr

/-- `Str2D.validate_fill`: `None ↦ (' ', 0)`; a string must be a single
character (alpha 0); a pair must have a single-character first component
and alpha in `{0, 1}`. -/
def validate_fill : FillSpec → Option Cell
  | .nofill => some ⟨' ', 0⟩
  | .str s => if s.length = 1 then some ⟨s.toList.headD ' ', 0⟩ else none
  | .pair s a =>
      if s.length = 1 ∧ (a = 0 ∨ a = 1) then some ⟨s.toList.headD ' ', a⟩
      else none

/-- Python `str.lower`, character by character. -/
def pyLower (s : String) : String := ⟨s.data.map Char.toLower⟩

/-- `Str2D.validate_halign`: lower-case, then require membership in
`{'left', 'center', 'right'}`. -/
def validate_halign (s : String) : Option String :=
  let t := pyLower s
  if t ∈ validHaligns then some t else none

/-- `Str2D.validate_valign`: lower-case, then require membership in
`{'top', 'middle', 'bottom'}`. -/
def validate_valign (s : String) : Option String :=
  let t := pyLower s
  if t ∈ validValigns then some t else none

/-- Validation of an already-stored fill cell, as when the constructor
receives `fill=self.fill` (a `(char, alpha)` tuple whose char is a
single character by dtype): only the alpha check can fail. -/
def validateFillCell (f : Cell) : Option Cell :=
  if f.alpha = 0 ∨ f.alpha = 1 then some f else none

/-! ## `np.pad` on structured arrays (`Str2D.struct_pad`)

`struct_pad` pads the `char` and the `alpha` field with the same
`np.pad` call and recombines them; padding the two fields separately
with the same geometry is the same as padding cells, which is how we
embed it.  `mode='constant'` fills with the fill cell, `mode='edge'`
repeats the nearest border cell. -/
inductive PadMode where
  | constant : PadMode
  | edge : PadMode
deriving DecidableEq, Repr

/-- Constant-mode `np.pad` of one row. -/
def padRowC (l r : Nat) (f : Cell) (row : List Cell) : List Cell :=
  List.replicate l f ++ row ++ List.replicate r f

/-- Edge-mode `np.pad` of one row: repeat the first/last entries. -/
def padRowE (l r : Nat) (row : List Cell) : List Cell :=
  List.replicate l (row.headD defCell) ++ row ++
    List.replicate r (row.getLastD defCell)

/-- `np.pad(array, ((t, b), (l, r)), mode='constant', constant_values=f)`
on an array of width `w`. -/
def padConstant (t b l r : Nat) (f : Cell) (w : Nat) (d : List (List Cell)) :
    List (List Cell) :=
  List.replicate t (List.replicate (l + w + r) f) ++ d.map (padRowC l r f) ++
    List.replicate b (List.replicate (l + w + r) f)

/-- `np.pad(array, ((t, b), (l, r)), mode='edge')`: pad each row at its
ends, then repeat the first/last padded row (this reproduces numpy's
corner behaviour). -/
def padEdge (t b l r : Nat) (d : List (List Cell)) : List (List Cell) :=
  let rows := d.map (padRowE l r)
  List.replicate t (rows.headD []) ++ rows ++ List.replicate b (rows.getLastD [])

/-- `Str2D.struct_pad` with pad widths `((t, b), (l, r))`. -/
def structPad (mode : PadMode) (t b l r : Nat) (f : Cell) (w : Nat)
    (d : List (List Cell)) : List (List Cell) :=
  match mode with
  | .constant => padConstant t b l r f w d
  | .edge => padEdge t b l r d

/-! ## The constructor on structured-array input

`Str2D(data=<struct array>, halign=…, valign=…, fill=…)` (no
`min_width`/`min_height`): `parse` copies the array, validation runs,
and the second-stage padding of `__init__` is by zero on both axes
(`height_data = max(height_input, 0) = height_input`, same for width),
i.e. `struct_pad(data, ((0, 0), (0, 0)))`. -/
def mkStruct (h w : Nat) (d : List (List Cell)) (halign valign : String)
    (fill : Cell) : Option Grid := do
  let f ← validateFillCell fill
  let ha ← validate_halign halign
  let va ← validate_valign valign
  some ⟨h, w, padConstant 0 0 0 0 f w d, ha, va, f⟩

/-! ## Generic indexing lemmas -/
/-- Build a data matrix of shape `(h, w)` from a cell-valued function. -/
def genData (h w : Nat) (f : Nat → Nat → Cell) : List (List Cell) :=
  (List.range h).map fun i => (List.range w).map fun j => f i j

/-! ## The transformation group (`Str2D.t`, `.h`, `.v`, `.r`)

Each transformation builds a new `Str2D` with transformed data and
remapped alignment, from the class-level tables `_align_transpose`,
`_align_horizontal`, `_align_vertical`.  A missing key would be a
Python `KeyError`, embedded as `none`. -/
/-- `Str2D._align_transpose`. -/
def alignTranspose : String → Option String
  | "top" => some "left"
  | "middle" => some "center"
  | "bottom" => some "right"
  | "left" => some "top"
  | "center" => some "middle"
  | "right" => some "bottom"
  | _ => none

/-- `Str2D._align_horizontal`. -/
def alignHorizontal : String → Option String
  | "left" => some "right"
  | "center" => some "center"
  | "right" => some "left"
  | _ => none

/-- `Str2D._align_vertical`. -/
def alignVertical : String → Option String
  | "top" => some "bottom"
  | "middle" => some "middle"
  | "bottom" => some "top"
  | _ => none

/-- `Str2D.t`: `data.T` with `halign`/`valign` remapped through
`_align_transpose` (a transposed numpy view has the transposed cells). -/
def Grid.t (g : Grid) : Option Grid := do
  let ha ← alignTranspose g.valign
  let va ← alignTranspose g.halign
  mkStruct g.w g.h (genData g.w g.h fun i j => g.cell j i) ha va g.fill

/-- `Str2D.h`: `np.fliplr(data)` (reverse each row) with `halign`
remapped through `_align_horizontal`.  (Named `hflip` because `h` is the
height field.) -/
def Grid.hflip (g : Grid) : Option Grid := do
  let ha ← alignHorizontal g.halign
  mkStruct g.h g.w (g.data.map List.reverse) ha g.valign g.fill

/-- `Str2D.v`: `np.flipud(data)` (reverse the row order) with `valign`
remapped through `_align_vertical`. -/
def Grid.vflip (g : Grid) : Option Grid := do
  let va ← alignVertical g.valign
  mkStruct g.h g.w g.data.reverse g.halign va g.fill

/-- `Str2D.r`: `self.t.h`, the 90° clockwise rotation. -/
def Grid.rot (g : Grid) : Option Grid := g.t >>= Grid.hflip

/-- The data part of `Str2D.r` (transpose, then reverse each row). -/
def rotData (h w : Nat) (d : List (List Cell)) : List (List Cell) :=
  (genData w h fun i j => cellAt d j i).map List.reverse

/-- A sample validated 2×2 grid with non-default alignment, used by the
concrete witnesses. -/
def sampleA : Grid :=
  ⟨2, 2, [[⟨'a', 1⟩, ⟨'b', 1⟩], [⟨'c', 1⟩, ⟨'d', 1⟩]], "right", "middle", ⟨' ', 0⟩⟩

/-! ## Grid construction from a string
(`Str2D.struct_array_from_string` and `Str2D.__init__`) -/
/-- Maximum of a list of naturals, `max(…, default=0)`. -/
def listMax (l : List Nat) : Nat := l.foldr max 0

/-- Python `str.split('\n')` on a character sequence: the list of
newline-separated pieces (an empty input is the single empty piece). -/
def splitOnNl : List Char → List (List Char)
  | [] => [[]]
  | c :: cs =>
      let r := splitOnNl cs
      if c = '\n' then [] :: r
      else (c :: r.headD []) :: r.tail

/-- The line boundaries of Python `str.splitlines`: `\n`, `\r`,
`\v`, `\f`, the separators `\x1c`–`\x1e`, `\x85` (NEL), `\u2028`
(LS) and `\u2029` (PS). -/
def isLineBreak (c : Char) : Bool :=
  c = '\n' || c = '\r' || c = '\x0B' || c = '\x0C' || c = '\x1C' ||
  c = '\x1D' || c = '\x1E' || c = '\x85' || c = '\u2028' || c = '\u2029'

/-- The `"\r\n"` pairing of `str.splitlines`: replace each two-character
boundary `"\r\n"` by the single boundary `"\n"`. -/
def normNl : List Char → List Char
  | [] => []
  | [c] => [c]
  | c :: d :: cs =>
      if c = '\r' ∧ d = '\n' then '\n' :: normNl cs
      else c :: normNl (d :: cs)

/-- Split a character sequence at every line-boundary character (an
empty input is the single empty piece). -/
def splitBreaks : List Char → List (List Char)
  | [] => [[]]
  | c :: cs =>
      let r := splitBreaks cs
      if isLineBreak c then [] :: r
      else (c :: r.headD []) :: r.tail

/-- Python `str.splitlines()` (`string.splitlines()` in
`struct_array_from_string`): pair `"\r\n"`, split at every line
boundary, and drop the final empty piece produced by a trailing
boundary; the empty string has no lines. -/
def pySplitlines (s : String) : List (List Char) :=
  let l := normNl s.toList
  if l = [] then []
  else
    let p := splitBreaks l
    if (l.getLast?.map isLineBreak).getD false = true then p.dropLast else p

/-- `height = max(data_height, min_height)` in
`struct_array_from_string`. -/
def stringHeight (pre : List (List Char)) (minh : Nat) : Nat :=
  max pre.length minh

/-- `width = max(data_width, min_width)` in `struct_array_from_string`
(`data_width = max(map(len, pre_data), default=0)`). -/
def stringWidth (pre : List (List Char)) (minw : Nat) : Nat :=
  max (listMax (pre.map List.length)) minw

/-- `start_v` of `struct_array_from_string`: the vertical offset of the
block of input rows. -/
def startV (valign : String) (height dataH : Nat) : Nat :=
  match valign with
  | "middle" => (height - dataH) / 2
  | "bottom" => height - dataH
  | _ => 0

/-- `start` of `struct_array_from_string`: the horizontal offset of one
input row of length `len`. -/
def startH (halign : String) (width len : Nat) : Nat :=
  match halign with
  | "center" => (width - len) / 2
  | "right" => width - len
  | _ => 0

/-- `Str2D.struct_array_from_string`: allocate a `(height, width)` array
filled with the fill cell, then write each input row at its
`valign`/`halign`-determined offset with alpha 1.  The loop writes
disjoint in-bounds positions, embedded here as the equivalent
cell-valued function. -/
def stringData (pre : List (List Char)) (minw minh : Nat)
    (halign valign : String) (fill : Cell) : List (List Cell) :=
  let width := stringWidth pre minw
  let height := stringHeight pre minh
  let sv := startV valign height pre.length
  genData height width fun i j =>
    if sv ≤ i ∧ i - sv < pre.length then
      let row := pre.getD (i - sv) []
      let st := startH halign width row.length
      if st ≤ j ∧ j - st < row.length then ⟨row.getD (j - st) ' ', 1⟩
      else fill
    else fill

/-- `Str2D.__init__` on string input: validate `fill`, `halign`,
`valign` (in that order, before the data is parsed), parse the string
through `struct_array_from_string`, then apply the second-stage padding
of `__init__` — which is zero on both axes because the parsed array
already meets the minima. -/
def construct (s : String) (minw minh : Option Nat) (halign valign : String)
    (fill : FillSpec) : Option Grid := do
  let f ← validate_fill fill
  let ha ← validate_halign halign
  let va ← validate_valign valign
  let pre := pySplitlines s
  let hIn := stringHeight pre (minh.getD 0)
  let wIn := stringWidth pre (minw.getD 0)
  let data := stringData pre (minw.getD 0) (minh.getD 0) ha va f
  let hData := max hIn (minh.getD 0)
  let wData := max wIn (minw.getD 0)
  let left : Nat :=
    match ha with
    | "center" => (wData - wIn) / 2
    | "right" => wData - wIn
    | _ => 0
  let right := wData - wIn - left
  let top : Nat :=
    match va with
    | "middle" => (hData - hIn) / 2
    | "bottom" => hData - hIn
    | _ => 0
  let bottom := hData - hIn - top
  some ⟨hData, wData, structPad .constant top bottom left right f wIn data, ha, va, f⟩

/-- `Str2D.__str__`: join the rows of the `char` field with newlines. -/
def Grid.toStr (g : Grid) : String :=
  String.intercalate "\n" (g.data.map fun r => String.mk (r.map Cell.char))

/-! ## Padding and expansion (`Str2D.pad`, `Str2D.expand`) -/
/-- `Str2D.pad`: `struct_pad` on own data (with the requested fill and
mode), result wrapped by the constructor with the grid's own kwargs. -/
def Grid.pad (g : Grid) (t b l r : Nat) (mode : PadMode) (f : Cell) :
    Option Grid :=
  mkStruct (t + g.h + b) (l + g.w + r) (structPad mode t b l r f g.w g.data)
    g.halign g.valign g.fill

/-- `top` computed by `Str2D.expand` from `valign`. -/
def expandTop (valign : String) (y : Nat) : Nat :=
  match valign with
  | "middle" => y / 2
  | "bottom" => y
  | _ => 0

/-- `left` computed by `Str2D.expand` from `halign`. -/
def expandLeft (halign : String) (x : Nat) : Nat :=
  match halign with
  | "center" => x / 2
  | "right" => x
  | _ => 0

/-- `Str2D.expand`: distribute the total deficit `(x, y)` into sided
padding according to the grid's own alignment, then `pad`.  The fill is
`validate_fill(self.fill)`. -/
def Grid.expand (g : Grid) (x y : Nat) (mode : PadMode) : Option Grid := do
  let f ← validateFillCell g.fill
  let top := expandTop g.valign y
  let left := expandLeft g.halign x
  g.pad top (y - top) left (x - left) mode f

/-! ## Horizontal join (`Str2D.__add__`) -/
/-- The lift `Str2D(data=other)` of a bare string operand (all
construction defaults). -/
def liftStr (s : String) : Option Grid :=
  construct s none none "left" "top" .nofill

/-- `np.hstack` of two same-height arrays: concatenate the rows
pairwise. -/
def hstackData (d1 d2 : List (List Cell)) : List (List Cell) :=
  List.zipWith (· ++ ·) d1 d2

/-- `Str2D.__add__` on two grids: expand both to the common height
(constant mode, each grid's own alignment), `np.hstack`, and rebuild
with the left operand's kwargs. -/
def Grid.add (A B : Grid) : Option Grid := do
  let height := max A.h B.h
  let L ← A.expand 0 (height - A.h) .constant
  let R ← B.expand 0 (height - B.h) .constant
  mkStruct height (L.w + R.w) (hstackData L.data R.data) A.halign A.valign A.fill

/-- `Str2D.__add__` with a string right operand: the string is lifted by
`Str2D(data=other)` and its expansion mode is `'edge'`, or `'constant'`
when the string is empty. -/
def Grid.addStr (A : Grid) (s : String) : Option Grid := do
  let mode := if s = "" then PadMode.constant else PadMode.edge
  let B ← liftStr s
  let height := max A.h B.h
  let L ← A.expand 0 (height - A.h) .constant
  let R ← B.expand 0 (height - B.h) mode
  mkStruct height (L.w + R.w) (hstackData L.data R.data) A.halign A.valign A.fill

/-! ## Repetition (`Str2D.__mul__`, `Str2D.__rmul__`) -/
/-- `Str2D.__mul__`: `np.hstack([data] * n)` rebuilt with own kwargs.
`n = 0` (or negative) gives `np.hstack([])`, a `ValueError`. -/
def Grid.mul (A : Grid) (n : Nat) : Option Grid :=
  if n = 0 then none
  else
    mkStruct A.h (n * A.w) (A.data.map fun r => (List.replicate n r).flatten)
      A.halign A.valign A.fill

/-- `Str2D.__rmul__`: `np.vstack([data] * n)` rebuilt with own kwargs. -/
def Grid.rmul (A : Grid) (n : Nat) : Option Grid :=
  if n = 0 then none
  else
    mkStruct (n * A.h) A.w (List.replicate n A.data).flatten
      A.halign A.valign A.fill

/-! ## Roll (`Str2D.roll`) -/
/-- The shift normalisation of `np.roll`: `offset %= a.shape[ax] or 1`
(Python `%`, non-negative for a positive modulus). -/
def rollOff (extent : Nat) (x : Int) : Nat :=
  (x.emod (if extent = 0 then 1 else (extent : Int))).toNat

/-- One-axis cyclic shift by a normalised offset: `a[-off:] ++ a[:-off]`
on a sequence of the given extent. -/
def rollList {α : Type} (extent off : Nat) (l : List α) : List α :=
  l.drop (extent - off) ++ l.take (extent - off)

/-- `Str2D.roll`: `np.roll(data, x, axis)` rebuilt with own
`halign`/`valign`/`fill`.  Axis 1 shifts columns, any other of the two
valid axes (i.e. axis 0) shifts rows. -/
def Grid.roll (g : Grid) (x : Int) (axis : Nat) : Option Grid :=
  let data' :=
    if axis = 1 then g.data.map (rollList g.w (rollOff g.w x))
    else rollList g.h (rollOff g.h x) g.data
  mkStruct g.h g.w data' g.halign g.valign g.fill

/-! ## Indexing (`Str2D.__getitem__`) -/
/-- One bound of a Python/numpy unit-step slice: clamp into `[0, len]`,
counting from the end when negative. -/
def resolveSliceBound (len : Nat) (deflt : Nat) : Option Int → Nat
  | none => deflt
  | some k => if k < 0 then ((len : Int) + k).toNat else min k.toNat len

/-- The length of the selection `l[a:b]`. -/
def sliceCount (extent : Nat) (a b : Option Int) : Nat :=
  resolveSliceBound extent extent b - resolveSliceBound extent 0 a

/-- `l[a:b]` for a sequence of the given extent (truncating, unit
step). -/
def pySliceSh {α : Type} (extent : Nat) (l : List α) (a b : Option Int) :
    List α :=
  let s := resolveSliceBound extent 0 a
  let e := resolveSliceBound extent extent b
  (l.drop s).take (e - s)

/-- A numpy scalar index: valid in `[-extent, extent)`, else
`IndexError` (`none`). -/
def resolveScalar (extent : Nat) (k : Int) : Option Nat :=
  if 0 ≤ k then (if k < (extent : Int) then some k.toNat else none)
  else (if -(extent : Int) ≤ k then some ((extent : Int) + k).toNat else none)

/-- One index of `Str2D.__getitem__`'s key tuple. -/
inductive Key where
  | scalar (k : Int) : Key
  | slc (a b : Option Int) : Key
deriving Repr

/-- `Str2D.__getitem__` with a `(row, col)` key tuple: each scalar is
wrapped in a one-element list (`[k] if np.isscalar(k) else k`), the
resulting numpy selection is passed back to the constructor.

* slice/slice: basic indexing, truncating on both axes;
* scalar/slice (or slice/scalar): one advanced `[k]` index keeps the
  axis with length 1 (out of range: `IndexError`, i.e. `none`);
* scalar/scalar: the two `[·]` index arrays are broadcast pairwise, so
  `data[[i],[j]]` is a **1-D** array of one cell, and
  `Str2D.__init__` then fails unpacking
  `height_input, width_input = data.shape` (ValueError) — `none`. -/
def Grid.getitem2 (g : Grid) (rk ck : Key) : Option Grid :=
  match rk, ck with
  | .scalar _, .scalar _ => none
  | .scalar i, .slc a b => do
      let i' ← resolveScalar g.h i
      mkStruct 1 (sliceCount g.w a b) [pySliceSh g.w (g.row i') a b]
        g.halign g.valign g.fill
  | .slc a b, .scalar j => do
      let j' ← resolveScalar g.w j
      mkStruct (sliceCount g.h a b) 1
        ((pySliceSh g.h g.data a b).map fun r => [r.getD j' defCell])
        g.halign g.valign g.fill
  | .slc a b, .slc c d =>
      mkStruct (sliceCount g.h a b) (sliceCount g.w c d)
        ((pySliceSh g.h g.data a b).map fun r => pySliceSh g.w r c d)
        g.halign g.valign g.fill

end Modern

namespace Legacy

/-- The legacy `Str2D` of `src/str2d/str2d.py`: a tuple of rows `s`
together with the four attributes stored by `__init__` (in this order:
`halign`, `valign`, `hfill`, `vfill`).  `min_width`/`min_height` are not
stored (`_kwargs` excludes only `s`). -/
structure LGrid where
  s : List (List Char)
  halign : String
  valign : String
  hfill : String
  vfill : String
deriving DecidableEq, Repr

/-- `Str2D.height`: `len(self.s)`. -/
def lheight (g : LGrid) : Nat := g.s.length

/-- `Str2D.width`: `max(map(len, self.s))`.  Python's `max` raises on an
empty sequence; constructed grids always have at least one row, so the
total `foldr max 0` agrees with the source on every constructed grid. -/
def lwidth (g : LGrid) : Nat := Modern.listMax (g.s.map List.length)

/-- `Str2D.shape`: `(height, width)`. -/
def lshape (g : LGrid) : Nat × Nat := (lheight g, lwidth g)

/-- Cell access on a legacy grid (a character of a row). -/
def lcell (g : LGrid) (i j : Nat) : Char := (g.s.getD i []).getD j ' '

/-- `Str2D._norm_height`: pad the row block to
`max(height, min_height or 0)` rows of `vfill`, split according to
`valign.lower()` (`align.get` falls back to `'top'` on any other
token); `middle` uses `divmod(delta, 2)`, i.e. `(δ//2, δ//2 + δ%2)`. -/
def lnormHeight (valign vfill : String) (minh : Option Nat)
    (s : List (List Char)) : List (List Char) :=
  let height := max s.length (minh.getD 0)
  let delta := height - s.length
  let tb : Nat × Nat :=
    match Modern.pyLower valign with
    | "top" => (0, delta)
    | "middle" => (delta / 2, delta / 2 + delta % 2)
    | "bottom" => (delta, 0)
    | _ => (0, delta)
  List.replicate tb.1 vfill.toList ++ s ++ List.replicate tb.2 vfill.toList

/-- The format alignment character chosen by `_norm_width`:
`dict(right='>', left='<', center='^').get(halign.lower(), '<')`. -/
def alignChar (halign : String) : Char :=
  match Modern.pyLower halign with
  | "right" => '>'
  | "left" => '<'
  | "center" => '^'
  | _ => '<'

/-- Python `f"{row:{fill}{align}{width}}"` for a fill of at most one
character (empty means space): pad the row out to `width` (never
truncate); `'^'` puts `deficit // 2` on the left and the rest on the
right. -/
def pyFormatPad (hfill : String) (ac : Char) (width : Nat)
    (row : List Char) : List Char :=
  let fc := hfill.toList.headD ' '
  if width ≤ row.length then row
  else
    let d := width - row.length
    if ac = '>' then List.replicate d fc ++ row
    else if ac = '^' then
      List.replicate (d / 2) fc ++ row ++ List.replicate (d - d / 2) fc
    else row ++ List.replicate d fc

/-- `Str2D._norm_width`: format every row to
`width = max(self.width, min_width or 0)`.  `self.width` is a `max` over
the rows and raises `ValueError` when there are none; a fill of more
than one character is an invalid format specifier.  Both failures are
`none`. -/
def lnormWidth (halign hfill : String) (minw : Option Nat)
    (s : List (List Char)) : Option (List (List Char)) :=
  if s.isEmpty then none
  else if 1 < hfill.length then none
  else
    let width := max (Modern.listMax (s.map List.length)) (minw.getD 0)
    some (s.map (pyFormatPad hfill (alignChar halign) width))

/-- The legacy constructor on row input: store the attributes, then
`_norm_height` followed by `_norm_width`. -/
def lmk (inp : List (List Char)) (halign valign hfill vfill : String)
    (minw minh : Option Nat) : Option LGrid := do
  let s1 := lnormHeight valign vfill minh inp
  let s2 ← lnormWidth halign hfill minw s1
  some ⟨s2, halign, valign, hfill, vfill⟩

/-- The legacy constructor on string input: `inp.split('\n')`. -/
def lmkStr (str : String) (halign valign hfill vfill : String)
    (minw minh : Option Nat) : Option LGrid :=
  lmk (Modern.splitOnNl str.toList) halign valign hfill vfill minw minh

/-- `utils.apply_mask`: requires equal lengths (`assert`), then
character-wise `c if op(m, char) else (substitute_char or m)` with
`op = ne` when inverted, `eq` otherwise. -/
def applyMask (inp mask : List Char) (char : Char) (substitute : Option Char)
    (invert : Bool) : Option (List Char) :=
  if inp.length ≠ mask.length then none
  else
    some (List.zipWith
      (fun c m =>
        if (if invert then m ≠ char else m = char) then c
        else substitute.getD m)
      inp mask)

/-- `utils.chunk`: split into consecutive full chunks of size `k`,
dropping any incomplete final chunk (the zip-of-strides in the source
truncates at the shortest stride); `k = 0` yields no chunks. -/
def lchunk (l : List Char) (k : Nat) : List (List Char) :=
  if k = 0 then []
  else (List.range (l.length / k)).map fun i => (l.drop (i * k)).take k

/-- `Str2D.layer`: shape check (ValueError on mismatch, before any cell
is read), then `apply_mask("".join(self.s), "".join(msk.s), char, None)`
re-chunked at `self.width` and passed to the constructor with
`self._kwargs`. -/
def llayer (A M : LGrid) (char : Char) : Option LGrid :=
  if lshape M ≠ lshape A then none
  else do
    let s ← applyMask A.s.flatten M.s.flatten char none false
    lmk (lchunk s (lwidth A)) A.halign A.valign A.hfill A.vfill none none

/-- `Str2D.mask`: as `layer` but substituting `replace` for the masked
positions. -/
def lmask (A M : LGrid) (char rep : Char) : Option LGrid :=
  if lshape M ≠ lshape A then none
  else do
    let s ← applyMask A.s.flatten M.s.flatten char (some rep) false
    lmk (lchunk s (lwidth A)) A.halign A.valign A.hfill A.vfill none none

/-- `Str2D.__add__` on two grids (side `'left'`): normalise both copies
to the common height and their own widths, join rows pairwise
(`zip` truncates at the shorter operand), and rebuild with the left
operand's `_kwargs`. -/
def ladd (a b : LGrid) : Option LGrid := do
  let height := max (lheight a) (lheight b)
  let as2 ← lnormWidth a.halign a.hfill none
    (lnormHeight a.valign a.vfill (some height) a.s)
  let bs2 ← lnormWidth b.halign b.hfill none
    (lnormHeight b.valign b.vfill (some height) b.s)
  lmk (List.zipWith (· ++ ·) as2 bs2) a.halign a.valign a.hfill a.vfill
    none none

/-- `Str2D.__truediv__` on two grids (side `'left'`): concatenate the
row tuples and rebuild with the left operand's `_kwargs`. -/
def ldiv (a b : LGrid) : Option LGrid :=
  lmk (a.s ++ b.s) a.halign a.valign a.hfill a.vfill none none

/-- A Python value passed as the repetition count: an `int` or anything
else. -/
inductive PyVal where
  | int (n : Int) : PyVal
  | nonInt : PyVal
deriving DecidableEq, Repr

/-- `reduce(add, (self for _ in range(n)))`: no elements raises
`TypeError`, one element returns `self` itself, otherwise left fold. -/
def lmulGo (A : LGrid) : Nat → Option LGrid
  | 0 => none
  | 1 => some A
  | n + 2 => do
      let p ← lmulGo A (n + 1)
      ladd p A

/-- `Str2D.__mul__`: `ValueError` unless `n` is an `int`; then
`reduce(add, n copies)` (empty for `n ≤ 0`, a `TypeError`); a failure
inside an intermediate construction is a `ValueError`. -/
def lmul (A : LGrid) : PyVal → Except String LGrid
  | .nonInt => .error "ValueError: n has to be an integer"
  | .int n =>
      if n ≤ 0 then
        .error "TypeError: reduce of empty iterable with no initial value"
      else
        match lmulGo A n.toNat with
        | some g => .ok g
        | none => .error "ValueError: max() arg is an empty sequence"

/-- `reduce(div, (self for _ in range(n)))`. -/
def lfdivGo (A : LGrid) : Nat → Option LGrid
  | 0 => none
  | 1 => some A
  | n + 2 => do
      let p ← lfdivGo A (n + 1)
      ldiv p A

/-- `Str2D.__floordiv__`: as `__mul__` with vertical stacking. -/
def lfloordiv (A : LGrid) : PyVal → Except String LGrid
  | .nonInt => .error "ValueError: n has to be an integer"
  | .int n =>
      if n ≤ 0 then
        .error "TypeError: reduce of empty iterable with no initial value"
      else
        match lfdivGo A n.toNat with
        | some g => .ok g
        | none => .error "ValueError: max() arg is an empty sequence"

/-- `Str2D.H`: reversed rows, rebuilt with **default** kwargs (the
source constructs `type(self)(generator)` without `_kwargs`). -/
def lH (g : LGrid) : Option LGrid :=
  lmk (g.s.map List.reverse) "left" "top" "" "" none none

/-- `Str2D.V`: reversed row order, rebuilt with default kwargs. -/
def lV (g : LGrid) : Option LGrid :=
  lmk g.s.reverse "left" "top" "" "" none none

/-- The column count of `zip(*rows)`: the length of the shortest row
(`zip` truncates), zero when there are no rows. -/
def minLen (s : List (List Char)) : Nat :=
  match s with
  | [] => 0
  | r :: rs => (rs.map List.length).foldl min r.length

/-- `map("".join, zip(*self.s))`. -/
def zipCols (s : List (List Char)) : List (List Char) :=
  match s with
  | [] => []
  | _ => (List.range (minLen s)).map fun j => s.map fun r => r.getD j ' '

/-- `Str2D.T`: transpose via `zip`, rebuilt with default kwargs. -/
def lT (g : LGrid) : Option LGrid :=
  lmk (zipCols g.s) "left" "top" "" "" none none

/-- The common shape of `Str2D.strip`, `replace`, `lower`, `upper`,
`title`: apply a row-wise string function, rebuild with `_kwargs`. -/
def lmapRows (g : LGrid) (f : List Char → List Char) : Option LGrid :=
  lmk (g.s.map f) g.halign g.valign g.hfill g.vfill none none

/-- `Str2D.shuffle` after the call into the `random` module: the
shuffled character sequence is chunked at `self.width` and rebuilt with
`_kwargs`.  The permutation itself is external (random state), so it is
a parameter. -/
def lshuffleWith (g : LGrid) (shuffled : List Char) : Option LGrid :=
  lmk (lchunk shuffled (lwidth g)) g.halign g.valign g.hfill g.vfill none none

/-- `Str2D.__getitem__` with a slice: `self.s[other]` rebuilt with
`_kwargs`. -/
def lgetitemSlice (g : LGrid) (a b : Option Int) : Option LGrid :=
  lmk (Modern.pySliceSh g.s.length g.s a b) g.halign g.valign g.hfill g.vfill
    none none

/-- Well-formedness of a legacy grid as established by the constructor:
at least one row, all rows of the common width, and a usable `hfill`
(at most one character — anything longer is rejected by every row
format). -/
def LGrid.WF (g : LGrid) : Prop :=
  g.s ≠ [] ∧ (∀ r ∈ g.s, r.length = lwidth g) ∧ g.hfill.length ≤ 1

instance (g : LGrid) : Decidable g.WF := by unfold LGrid.WF; infer_instance

/-- The character selected by `apply_mask` at one position for
`layer` (`substitute_char=None`, not inverted): the overlay's character
unless it equals the mask character, in which case the base shows
through. -/
def maskChar (c : Char) (a m : Char) : Char := if m = c then a else m

end Legacy

namespace Modern

/-- Zero-width constant padding is the identity (`np.pad` by 0). -/
theorem padConstant_zero (f : Cell) (w : Nat) (d : List (List Cell)) :
    padConstant 0 0 0 0 f w d = d := by
  simp only [padConstant, List.replicate_zero, List.nil_append, List.append_nil]
  conv_rhs => rw [← List.map_id d]
  exact List.map_congr_left fun r _ => by simp [padRowC]

theorem getD_map_range {α : Type} (n : Nat) (f : Nat → α) (i : Nat) (d : α) :
    (((List.range n).map f).getD i d) = if i < n then f i else d := by
  by_cases h : i < n
  · rw [if_pos h, List.getD_eq_getElem _ _ (by simpa using h)]
    simp
  · rw [if_neg h, List.getD_eq_default _ _ (by simpa using Nat.le_of_not_lt h)]

theorem cellAt_genData (h w : Nat) (f : Nat → Nat → Cell) (i j : Nat) :
    cellAt (genData h w f) i j =
      if i < h ∧ j < w then f i j else defCell := by
  unfold cellAt genData
  rw [getD_map_range]
  by_cases hi : i < h
  · rw [if_pos hi, getD_map_range]
    by_cases hj : j < w
    · rw [if_pos hj, if_pos ⟨hi, hj⟩]
    · rw [if_neg hj, if_neg (by tauto)]
  · rw [if_neg hi, if_neg (by tauto)]
    simp

theorem genData_WF (h w : Nat) (f : Nat → Nat → Cell) :
    dataWF h w (genData h w f) := by
  constructor
  · simp [genData]
  · intro r hr
    simp only [genData, List.mem_map] at hr
    obtain ⟨i, -, rfl⟩ := hr
    simp

theorem dataWF_row_length {h w : Nat} {d : List (List Cell)}
    (hd : dataWF h w d) {i : Nat} (hi : i < h) : (d.getD i []).length = w := by
  have hlen : i < d.length := by rw [hd.1]; exact hi
  rw [List.getD_eq_getElem _ _ hlen]
  exact hd.2 _ (List.getElem_mem hlen)

theorem cellAt_eq_getElem {h w : Nat} {d : List (List Cell)}
    (_hd : dataWF h w d) {i j : Nat} (_hi : i < h) (_hj : j < w) :
    ∀ (hi' : i < d.length) (hj' : j < d[i].length),
      cellAt d i j = d[i][j] := by
  intro hi' hj'
  unfold cellAt
  rw [List.getD_eq_getElem _ _ hi', List.getD_eq_getElem _ _ hj']

/-- Two well-formed matrices of the same shape with the same cells are
equal. -/
theorem data_ext {h w : Nat} {d1 d2 : List (List Cell)}
    (h1 : dataWF h w d1) (h2 : dataWF h w d2)
    (hc : ∀ i < h, ∀ j < w, cellAt d1 i j = cellAt d2 i j) : d1 = d2 := by
  apply List.ext_getElem (by rw [h1.1, h2.1])
  intro i hi1 hi2
  have hih : i < h := by rwa [h1.1] at hi1
  apply List.ext_getElem
  · rw [h1.2 _ (List.getElem_mem hi1), h2.2 _ (List.getElem_mem hi2)]
  intro j hj1 hj2
  have hjw : j < w := by rwa [h1.2 _ (List.getElem_mem hi1)] at hj1
  have e1 := cellAt_eq_getElem h1 hih hjw hi1 hj1
  have e2 := cellAt_eq_getElem h2 hih hjw hi2 hj2
  rw [← e1, ← e2]
  exact hc i hih j hjw

/-- A well-formed matrix is reproduced by its cell function. -/
theorem genData_cellAt {h w : Nat} {d : List (List Cell)}
    (hd : dataWF h w d) : genData h w (cellAt d) = d := by
  refine data_ext (genData_WF h w _) hd ?_
  intro i hi j hj
  rw [cellAt_genData, if_pos ⟨hi, hj⟩]

/-! ## Validation on already-valid values -/
theorem validate_halign_valid {s : String} (hs : s ∈ validHaligns) :
    validate_halign s = some s := by
  fin_cases hs <;> decide

theorem validate_valign_valid {s : String} (hs : s ∈ validValigns) :
    validate_valign s = some s := by
  fin_cases hs <;> decide

theorem validateFillCell_valid {f : Cell} (hf : f.alpha = 0 ∨ f.alpha = 1) :
    validateFillCell f = some f := by
  unfold validateFillCell
  rw [if_pos hf]

/-- On validated configuration the structured-array constructor is a
repackaging: the data is returned unchanged. -/
theorem mkStruct_valid {halign valign : String} {fill : Cell}
    (hha : halign ∈ validHaligns) (hva : valign ∈ validValigns)
    (hf : fill.alpha = 0 ∨ fill.alpha = 1) (h w : Nat) (d : List (List Cell)) :
    mkStruct h w d halign valign fill = some ⟨h, w, d, halign, valign, fill⟩ := by
  unfold mkStruct
  rw [validateFillCell_valid hf, validate_halign_valid hha,
    validate_valign_valid hva]
  simp [padConstant_zero]

/-! ## Lemmas about the alignment tables -/
theorem alignTranspose_v2h {a b : String} (ha : a ∈ validValigns)
    (h : alignTranspose a = some b) : b ∈ validHaligns := by
  fin_cases ha <;>
    (simp only [alignTranspose, Option.some.injEq] at h; subst h; decide)

theorem alignTranspose_h2v {a b : String} (ha : a ∈ validHaligns)
    (h : alignTranspose a = some b) : b ∈ validValigns := by
  fin_cases ha <;>
    (simp only [alignTranspose, Option.some.injEq] at h; subst h; decide)

theorem alignHorizontal_mem {a b : String} (ha : a ∈ validHaligns)
    (h : alignHorizontal a = some b) : b ∈ validHaligns := by
  fin_cases ha <;>
    (simp only [alignHorizontal, Option.some.injEq] at h; subst h; decide)

theorem alignVertical_mem {a b : String} (ha : a ∈ validValigns)
    (h : alignVertical a = some b) : b ∈ validValigns := by
  fin_cases ha <;>
    (simp only [alignVertical, Option.some.injEq] at h; subst h; decide)

theorem alignTranspose_exists_v {a : String} (ha : a ∈ validValigns) :
    ∃ b, b ∈ validHaligns ∧ alignTranspose a = some b ∧
      alignTranspose b = some a := by
  fin_cases ha <;> exact ⟨_, by decide, rfl, rfl⟩

theorem alignHorizontal_exists {a : String} (ha : a ∈ validHaligns) :
    ∃ b, b ∈ validHaligns ∧ alignHorizontal a = some b ∧
      alignHorizontal b = some a := by
  fin_cases ha <;> exact ⟨_, by decide, rfl, rfl⟩

theorem alignVertical_exists {a : String} (ha : a ∈ validValigns) :
    ∃ b, b ∈ validValigns ∧ alignVertical a = some b ∧
      alignVertical b = some a := by
  fin_cases ha <;> exact ⟨_, by decide, rfl, rfl⟩

/-! ## Closed forms for the transformations on validated grids -/
theorem cell_eq_cellAt (g : Grid) (i j : Nat) : g.cell i j = cellAt g.data i j := rfl

theorem t_eq (h w : Nat) (d : List (List Cell)) (ha va : String) (f : Cell)
    (hf : f.alpha = 0 ∨ f.alpha = 1)
    {haT va' : String} (h1 : alignTranspose va = some haT)
    (h2 : alignTranspose ha = some va')
    (hm1 : haT ∈ validHaligns) (hm2 : va' ∈ validValigns) :
    Grid.t ⟨h, w, d, ha, va, f⟩ =
      some ⟨w, h, genData w h (fun i j => cellAt d j i), haT, va', f⟩ := by
  unfold Grid.t
  rw [show (⟨h, w, d, ha, va, f⟩ : Grid).valign = va from rfl, h1,
    show (⟨h, w, d, ha, va, f⟩ : Grid).halign = ha from rfl, h2]
  simp only [Option.bind_eq_bind, Option.some_bind]
  exact mkStruct_valid hm1 hm2 hf _ _ _

theorem hflip_eq (h w : Nat) (d : List (List Cell)) (ha va : String) (f : Cell)
    (hf : f.alpha = 0 ∨ f.alpha = 1)
    {ha' : String} (h1 : alignHorizontal ha = some ha')
    (hm1 : ha' ∈ validHaligns) (hm2 : va ∈ validValigns) :
    Grid.hflip ⟨h, w, d, ha, va, f⟩ =
      some ⟨h, w, d.map List.reverse, ha', va, f⟩ := by
  unfold Grid.hflip
  rw [show (⟨h, w, d, ha, va, f⟩ : Grid).halign = ha from rfl, h1]
  simp only [Option.bind_eq_bind, Option.some_bind]
  exact mkStruct_valid hm1 hm2 hf _ _ _

theorem vflip_eq (h w : Nat) (d : List (List Cell)) (ha va : String) (f : Cell)
    (hf : f.alpha = 0 ∨ f.alpha = 1)
    {va' : String} (h1 : alignVertical va = some va')
    (hm1 : ha ∈ validHaligns) (hm2 : va' ∈ validValigns) :
    Grid.vflip ⟨h, w, d, ha, va, f⟩ =
      some ⟨h, w, d.reverse, ha, va', f⟩ := by
  unfold Grid.vflip
  rw [show (⟨h, w, d, ha, va, f⟩ : Grid).valign = va from rfl, h1]
  simp only [Option.bind_eq_bind, Option.some_bind]
  exact mkStruct_valid hm1 hm2 hf _ _ _

/-! ## Data-level round trips -/
theorem map_reverse_map_reverse (d : List (List Cell)) :
    (d.map List.reverse).map List.reverse = d := by
  rw [List.map_map]
  conv_rhs => rw [← List.map_id d]
  exact List.map_congr_left fun r _ => by simp

theorem tt_data {h w : Nat} {d : List (List Cell)} (hd : dataWF h w d) :
    genData h w
      (fun i j => cellAt (genData w h fun i' j' => cellAt d j' i') j i) = d := by
  refine data_ext (genData_WF h w _) hd ?_
  intro i hi j hj
  rw [cellAt_genData, if_pos ⟨hi, hj⟩, cellAt_genData, if_pos ⟨hj, hi⟩]

theorem rotData_WF {h w : Nat} (d : List (List Cell)) :
    dataWF w h (rotData h w d) := by
  constructor
  · simp [rotData, genData]
  · intro r hr
    simp only [rotData, genData, List.map_map, List.mem_map] at hr
    obtain ⟨i, -, rfl⟩ := hr
    simp

theorem cellAt_map_reverse {h w : Nat} {d : List (List Cell)}
    (hd : dataWF h w d) {i j : Nat} (hi : i < h) (hj : j < w) :
    cellAt (d.map List.reverse) i j = cellAt d i (w - 1 - j) := by
  have hil : i < d.length := by rw [hd.1]; exact hi
  have hrl : d[i].length = w := hd.2 _ (List.getElem_mem hil)
  unfold cellAt
  rw [List.getD_eq_getElem (d.map List.reverse) [] (by simpa using hil),
    List.getElem_map, List.getD_eq_getElem d [] hil]
  rw [List.getD_eq_getElem _ _ (by simpa [hrl] using hj),
    List.getD_eq_getElem _ _ (by rw [hrl]; omega)]
  rw [List.getElem_reverse]
  congr 1
  omega

theorem cellAt_rotData {h w : Nat} {d : List (List Cell)}
    (_hd : dataWF h w d) {i j : Nat} (hi : i < w) (hj : j < h) :
    cellAt (rotData h w d) i j = cellAt d (h - 1 - j) i := by
  unfold rotData
  rw [cellAt_map_reverse (genData_WF w h _) hi hj,
    cellAt_genData, if_pos ⟨hi, by omega⟩]

theorem rot4_data {h w : Nat} {d : List (List Cell)} (hd : dataWF h w d) :
    rotData w h (rotData h w (rotData w h (rotData h w d))) = d := by
  have wf1 := rotData_WF (h := h) (w := w) d
  have wf2 := rotData_WF (h := w) (w := h) (rotData h w d)
  have wf3 := rotData_WF (h := h) (w := w) (rotData w h (rotData h w d))
  refine data_ext (rotData_WF _) hd ?_
  intro i hi j hj
  rw [cellAt_rotData wf3 hi hj, cellAt_rotData wf2 (by omega) hi,
    cellAt_rotData wf1 (by omega) (by omega), cellAt_rotData hd (by omega) (by omega)]
  congr 1 <;> omega

theorem alignTranspose_exists_h {a : String} (ha : a ∈ validHaligns) :
    ∃ b, b ∈ validValigns ∧ alignTranspose a = some b ∧
      alignTranspose b = some a := by
  fin_cases ha <;> exact ⟨_, by decide, rfl, rfl⟩

/-! ## Round trips of the transformation group -/
theorem hflip_hflip (g : Grid) (hg : g.Valid) :
    (g.hflip >>= Grid.hflip) = some g := by
  obtain ⟨h, w, d, ha, va, f⟩ := g
  obtain ⟨hWF, hha, hva, hf⟩ := hg
  obtain ⟨b, hbmem, hab, hba⟩ := alignHorizontal_exists hha
  rw [hflip_eq h w d ha va f hf hab hbmem hva]
  simp only [Option.bind_eq_bind, Option.some_bind]
  rw [hflip_eq h w _ b va f hf hba hha hva]
  simp only [map_reverse_map_reverse]

theorem vflip_vflip (g : Grid) (hg : g.Valid) :
    (g.vflip >>= Grid.vflip) = some g := by
  obtain ⟨h, w, d, ha, va, f⟩ := g
  obtain ⟨hWF, hha, hva, hf⟩ := hg
  obtain ⟨b, hbmem, hab, hba⟩ := alignVertical_exists hva
  rw [vflip_eq h w d ha va f hf hab hha hbmem]
  simp only [Option.bind_eq_bind, Option.some_bind]
  rw [vflip_eq h w _ ha b f hf hba hha hva]
  simp only [List.reverse_reverse]

theorem t_t (g : Grid) (hg : g.Valid) : (g.t >>= Grid.t) = some g := by
  obtain ⟨h, w, d, ha, va, f⟩ := g
  obtain ⟨hWF, hha, hva, hf⟩ := hg
  obtain ⟨b, hb, e1, e1'⟩ := alignTranspose_exists_v hva
  obtain ⟨c, hc, e2, e2'⟩ := alignTranspose_exists_h hha
  rw [t_eq h w d ha va f hf e1 e2 hb hc]
  simp only [Option.bind_eq_bind, Option.some_bind]
  rw [t_eq w h _ b c f hf e2' e1' hha hva]
  rw [tt_data hWF]

/-- Closed form for one clockwise rotation of a validated grid. -/
theorem rot_eq (h w : Nat) (d : List (List Cell)) (ha va : String) (f : Cell)
    (hf : f.alpha = 0 ∨ f.alpha = 1)
    (hha : ha ∈ validHaligns) (hva : va ∈ validValigns)
    {haT ha' va' : String}
    (h1 : alignTranspose va = some haT)
    (h2 : alignTranspose ha = some va')
    (h3 : alignHorizontal haT = some ha') :
    Grid.rot ⟨h, w, d, ha, va, f⟩ = some ⟨w, h, rotData h w d, ha', va', f⟩ ∧
      ha' ∈ validHaligns ∧ va' ∈ validValigns := by
  have hmT := alignTranspose_v2h hva h1
  have hmv := alignTranspose_h2v hha h2
  have hm' := alignHorizontal_mem hmT h3
  refine ⟨?_, hm', hmv⟩
  unfold Grid.rot
  rw [t_eq h w d ha va f hf h1 h2 hmT hmv]
  simp only [Option.bind_eq_bind, Option.some_bind]
  rw [hflip_eq w h _ haT va' f hf h3 hm' hmv]
  rfl

theorem rot_rot_rot_rot (g : Grid) (hg : g.Valid) :
    (g.rot >>= Grid.rot >>= Grid.rot >>= Grid.rot) = some g := by
  obtain ⟨h, w, d, ha, va, f⟩ := g
  obtain ⟨hWF, hha, hva, hf⟩ := hg
  have hWF' : dataWF h w d := hWF
  have hf' : f.alpha = 0 ∨ f.alpha = 1 := hf
  have hha' : ha ∈ validHaligns := hha
  have hva' : va ∈ validValigns := hva
  obtain ⟨b1, hb1, e1, e1'⟩ := alignTranspose_exists_v hva'
  obtain ⟨c1, hc1, e2, e2'⟩ := alignTranspose_exists_h hha'
  obtain ⟨a1, ha1, e3, e3'⟩ := alignHorizontal_exists hb1
  obtain ⟨p, hp, ep, ep'⟩ := alignHorizontal_exists hha'
  obtain ⟨q, hq, eq1, eq1'⟩ := alignTranspose_exists_h ha1
  obtain ⟨r, hr, er, er'⟩ := alignTranspose_exists_h hp
  rw [(rot_eq h w d ha va f hf' hha' hva' e1 e2 e3).1]
  simp only [Option.bind_eq_bind, Option.some_bind]
  rw [(rot_eq w h _ a1 c1 f hf' ha1 hc1 e2' eq1 ep).1]
  simp only [Option.some_bind]
  rw [(rot_eq h w _ p q f hf' hp hq eq1' er e3').1]
  simp only [Option.some_bind]
  rw [(rot_eq w h _ b1 r f hf' hb1 hr er' e1' ep').1]
  rw [rot4_data hWF']

/-- The second-stage vertical padding in `__init__` is zero whenever the
target height equals the input height, whatever the alignment token. -/
theorem startV_self (va : String) (x : Nat) : startV va x x = 0 := by
  unfold startV
  have hx : x - x = 0 := Nat.sub_self x
  split <;> simp [hx]

theorem construct_eq (s : String) (minw minh : Option Nat) {ha va : String}
    {fill : FillSpec} {f : Cell} (hha : ha ∈ validHaligns)
    (hva : va ∈ validValigns) (hfv : validate_fill fill = some f) :
    construct s minw minh ha va fill =
      some ⟨stringHeight (pySplitlines s) (minh.getD 0),
        stringWidth (pySplitlines s) (minw.getD 0),
        stringData (pySplitlines s) (minw.getD 0)
          (minh.getD 0) ha va f, ha, va, f⟩ := by
  unfold construct
  rw [hfv, validate_halign_valid hha, validate_valign_valid hva]
  simp only [Option.bind_eq_bind, Option.some_bind, Option.some.injEq]
  have hH : max (stringHeight (pySplitlines s) (minh.getD 0))
      (minh.getD 0) = stringHeight (pySplitlines s)
        (minh.getD 0) := by
    unfold stringHeight; omega
  have hW : max (stringWidth (pySplitlines s) (minw.getD 0))
      (minw.getD 0) = stringWidth (pySplitlines s)
        (minw.getD 0) := by
    unfold stringWidth; omega
  rw [hH, hW]
  have hTop : ∀ x : Nat, (match va with
      | "middle" => (x - x) / 2
      | "bottom" => x - x
      | _ => 0) = 0 := by
    intro x
    have hx : x - x = 0 := Nat.sub_self x
    split <;> simp [hx]
  have hLeft : ∀ x : Nat, (match ha with
      | "center" => (x - x) / 2
      | "right" => x - x
      | _ => 0) = 0 := by
    intro x
    have hx : x - x = 0 := Nat.sub_self x
    split <;> simp [hx]
  rw [hTop, hLeft]
  simp [structPad, Nat.sub_self, padConstant_zero]

theorem listMax_ge {l : List Nat} {x : Nat} (hx : x ∈ l) : x ≤ listMax l := by
  induction l with
  | nil => cases hx
  | cons a t ih =>
      rcases List.mem_cons.mp hx with rfl | hx'
      · exact le_max_left _ _
      · exact le_trans (ih hx') (le_max_right _ _)

theorem listMax_const {l : List Nat} {c : Nat} (hne : l ≠ [])
    (hc : ∀ x ∈ l, x = c) : listMax l = c := by
  induction l with
  | nil => exact absurd rfl hne
  | cons a t ih =>
      have ha : a = c := hc a (List.mem_cons_self _ _)
      cases t with
      | nil => simp [listMax, ha]
      | cons b t' =>
          have ht := ih (by simp) (fun x hx => hc x (List.mem_cons_of_mem _ hx))
          show max a (listMax (b :: t')) = c
          rw [ha, ht, max_self]

end Modern

namespace Legacy

theorem pyFormatPad_length (hf : String) (ac : Char) (width : Nat)
    (row : List Char) :
    (pyFormatPad hf ac width row).length = max row.length width := by
  unfold pyFormatPad
  by_cases hw : width ≤ row.length
  · rw [if_pos hw]; omega
  · rw [if_neg hw]
    split_ifs <;> simp <;> omega

theorem pyFormatPad_noop (hf : String) (ac : Char) {width : Nat}
    {row : List Char} (hw : width ≤ row.length) :
    pyFormatPad hf ac width row = row := by
  unfold pyFormatPad
  rw [if_pos hw]

theorem lnormHeight_noop (va vf : String) {minh : Option Nat}
    {s : List (List Char)} (hm : minh.getD 0 ≤ s.length) :
    lnormHeight va vf minh s = s := by
  have h1 : max s.length (minh.getD 0) = s.length := by omega
  simp only [lnormHeight, h1, Nat.sub_self]
  have h3 : (match Modern.pyLower va with
      | "top" => ((0 : Nat), (0 : Nat))
      | "middle" => (0 / 2, 0 / 2 + 0 % 2)
      | "bottom" => (0, 0)
      | _ => (0, 0)) = ((0 : Nat), (0 : Nat)) := by
    split <;> rfl
  rw [h3]
  simp

theorem lnormWidth_noop (ha hf : String) {w : Nat} {s : List (List Char)}
    (hne : s ≠ []) (hfl : hf.length ≤ 1) (hrect : ∀ r ∈ s, r.length = w) :
    lnormWidth ha hf none s = some s := by
  have hmax : Modern.listMax (s.map List.length) = w := by
    refine Modern.listMax_const (by simpa using hne) ?_
    intro x hx
    obtain ⟨r, hr, rfl⟩ := List.mem_map.mp hx
    exact hrect r hr
  simp only [lnormWidth, if_neg (by simpa using hne : ¬s.isEmpty = true),
    if_neg (by omega : ¬1 < hf.length), Option.getD_none, hmax, Nat.max_zero,
    Option.some.injEq]
  conv_rhs => rw [← List.map_id s]
  refine List.map_congr_left fun r hr => ?_
  exact pyFormatPad_noop _ _ (le_of_eq (hrect r hr).symm)

theorem lmk_noop {rows : List (List Char)} {w : Nat}
    (ha va hf vf : String) (hne : rows ≠ []) (hfl : hf.length ≤ 1)
    (hrect : ∀ r ∈ rows, r.length = w) :
    lmk rows ha va hf vf none none = some ⟨rows, ha, va, hf, vf⟩ := by
  simp only [lmk, Option.bind_eq_bind]
  rw [show lnormHeight va vf none rows = rows from lnormHeight_noop va vf (by simp),
    lnormWidth_noop ha hf hne hfl hrect]
  rfl

theorem lmk_WF {inp : List (List Char)} {ha va hf vf : String}
    {mw mh : Option Nat} {G : LGrid}
    (h : lmk inp ha va hf vf mw mh = some G) : G.WF := by
  simp only [lmk, lnormWidth, Option.bind_eq_bind] at h
  set s1 := lnormHeight va vf mh inp with hs1
  by_cases he : s1.isEmpty
  · rw [if_pos he] at h; cases h
  rw [if_neg he] at h
  by_cases hl : 1 < hf.length
  · rw [if_pos hl] at h; cases h
  rw [if_neg hl] at h
  simp only [Option.some_bind, Option.some.injEq] at h
  subst h
  set width := max (Modern.listMax (s1.map List.length)) (mw.getD 0) with hwdef
  have hlen : ∀ r ∈ s1.map (pyFormatPad hf (alignChar ha) width),
      r.length = width := by
    intro r hr
    obtain ⟨r0, hr0, rfl⟩ := List.mem_map.mp hr
    rw [pyFormatPad_length]
    have : r0.length ≤ width := by
      have := Modern.listMax_ge (List.mem_map_of_mem List.length hr0)
      omega
    omega
  have hne2 : s1.map (pyFormatPad hf (alignChar ha) width) ≠ [] := by
    intro hcon
    exact (by simpa using he : ¬s1 = []) (List.map_eq_nil_iff.mp hcon)
  have hw : lwidth ⟨s1.map (pyFormatPad hf (alignChar ha) width), ha, va, hf, vf⟩
      = width := by
    unfold lwidth
    refine Modern.listMax_const (by simpa using hne2) ?_
    intro x hx
    obtain ⟨r, hr, rfl⟩ := List.mem_map.mp hx
    exact hlen r hr
  exact ⟨hne2, fun r hr => by rw [hlen r hr, hw],
    show hf.length ≤ 1 by omega⟩

theorem flatten_length_rect {α : Type} {s : List (List α)} {w : Nat}
    (hw : ∀ r ∈ s, r.length = w) : s.flatten.length = s.length * w := by
  induction s with
  | nil => simp
  | cons r t ih =>
      have hr : r.length = w := hw r (List.mem_cons_self _ _)
      have ht := ih (fun x hx => hw x (List.mem_cons_of_mem _ hx))
      simp only [List.flatten_cons, List.length_append, hr, ht, List.length_cons]
      ring

theorem lchunk_flatten {s : List (List Char)} {w : Nat} (hw0 : w ≠ 0)
    (hw : ∀ r ∈ s, r.length = w) : lchunk s.flatten w = s := by
  induction s with
  | nil => simp [lchunk, hw0]
  | cons r t ih =>
      have hr : r.length = w := hw r (List.mem_cons_self _ _)
      have hwt : ∀ x ∈ t, x.length = w :=
        fun x hx => hw x (List.mem_cons_of_mem _ hx)
      have hlen : (r :: t).flatten.length = (t.length + 1) * w := by
        rw [flatten_length_rect hw]
        simp [List.length_cons, Nat.succ_mul, Nat.add_comm]
      have hdiv : (r :: t).flatten.length / w = t.length + 1 := by
        rw [hlen, Nat.mul_div_cancel _ (Nat.pos_of_ne_zero hw0)]
      have hflat : (r :: t).flatten = r ++ t.flatten := List.flatten_cons ..
      unfold lchunk
      rw [if_neg hw0, hdiv, List.range_succ_eq_map]
      rw [List.map_cons, List.map_map]
      congr 1
      · rw [Nat.zero_mul, List.drop_zero, hflat, List.take_left' hr]
      · have hmap : List.map
            ((fun i => ((r :: t).flatten.drop (i * w)).take w) ∘ Nat.succ)
            (List.range t.length) =
            List.map (fun i => (t.flatten.drop (i * w)).take w)
            (List.range t.length) := by
          refine List.map_congr_left fun i _ => ?_
          show ((r :: t).flatten.drop (Nat.succ i * w)).take w =
            (t.flatten.drop (i * w)).take w
          rw [hflat]
          have hsw : Nat.succ i * w = r.length + i * w := by
            simp only [Nat.succ_eq_add_one]
            rw [hr]
            ring
          rw [hsw, ← List.drop_drop, List.drop_left]
        rw [hmap]
        have ht' := ih hwt
        unfold lchunk at ht'
        rw [if_neg hw0, flatten_length_rect hwt,
          Nat.mul_div_cancel _ (Nat.pos_of_ne_zero hw0)] at ht'
        exact ht'

theorem zipWith_flatten_rect {α : Type} (f : α → α → α)
    {s1 s2 : List (List α)} {w : Nat} (hl : s1.length = s2.length)
    (h1 : ∀ r ∈ s1, r.length = w) (h2 : ∀ r ∈ s2, r.length = w) :
    List.zipWith f s1.flatten s2.flatten =
      (List.zipWith (List.zipWith f) s1 s2).flatten := by
  induction s1 generalizing s2 with
  | nil => cases s2 <;> simp_all
  | cons r t ih =>
      cases s2 with
      | nil => cases hl
      | cons r2 t2 =>
          have hr : r.length = w := h1 r (List.mem_cons_self _ _)
          have hr2 : r2.length = w := h2 r2 (List.mem_cons_self _ _)
          simp only [List.flatten_cons, List.zipWith_cons_cons]
          rw [List.zipWith_append f _ _ _ _ (by rw [hr, hr2])]
          congr 1
          exact ih (by simpa using hl)
            (fun x hx => h1 x (List.mem_cons_of_mem _ hx))
            (fun x hx => h2 x (List.mem_cons_of_mem _ hx))

theorem zipWith_rect {α : Type} (f : α → α → α) {s1 s2 : List (List α)}
    {w : Nat} (h1 : ∀ r ∈ s1, r.length = w) (h2 : ∀ r ∈ s2, r.length = w) :
    ∀ r ∈ List.zipWith (List.zipWith f) s1 s2, r.length = w := by
  induction s1 generalizing s2 with
  | nil => simp
  | cons a t ih =>
      cases s2 with
      | nil => simp
      | cons b t2 =>
          intro r hr
          rcases List.mem_cons.mp (by simpa using hr) with rfl | hr'
          · rw [List.length_zipWith, h1 a (List.mem_cons_self _ _),
              h2 b (List.mem_cons_self _ _), min_self]
          · exact ih (fun x hx => h1 x (List.mem_cons_of_mem _ hx))
              (fun x hx => h2 x (List.mem_cons_of_mem _ hx)) r hr'

theorem applyMask_layer (inp mask : List Char) (c : Char)
    (hl : inp.length = mask.length) :
    applyMask inp mask c none false =
      some (List.zipWith (maskChar c) inp mask) := by
  unfold applyMask
  rw [if_neg (by omega)]
  rfl

/-- Successful `Str2D.layer` on same-shaped, positive-width grids: the
result is the cell-wise mask resolution with the base grid's kwargs. -/
theorem llayer_spec (A M : LGrid) (c : Char) (hA : A.WF) (hM : M.WF)
    (hsh : lshape M = lshape A) (hw : 1 ≤ lwidth A) :
    llayer A M c =
      some ⟨List.zipWith (List.zipWith (maskChar c)) A.s M.s,
        A.halign, A.valign, A.hfill, A.vfill⟩ := by
  have hwM : lwidth M = lwidth A := congrArg Prod.snd hsh
  have hhM : M.s.length = A.s.length := congrArg Prod.fst hsh
  have hrA : ∀ r ∈ A.s, r.length = lwidth A := hA.2.1
  have hrM : ∀ r ∈ M.s, r.length = lwidth A := by
    intro r hr
    rw [hM.2.1 r hr, hwM]
  have hlen : A.s.flatten.length = M.s.flatten.length := by
    rw [flatten_length_rect hrA, flatten_length_rect hrM, hhM]
  unfold llayer
  rw [if_neg (by simp [hsh])]
  rw [applyMask_layer _ _ _ hlen]
  simp only [Option.bind_eq_bind, Option.some_bind]
  rw [zipWith_flatten_rect _ hhM.symm hrA hrM,
    lchunk_flatten (by omega) (zipWith_rect _ hrA hrM)]
  have hne : List.zipWith (List.zipWith (maskChar c)) A.s M.s ≠ [] := by
    have : (List.zipWith (List.zipWith (maskChar c)) A.s M.s).length
        = A.s.length := by
      rw [List.length_zipWith, hhM, min_self]
    intro hcon
    rw [hcon] at this
    exact hA.1 (List.length_eq_zero.mp this.symm)
  exact lmk_noop _ _ _ _ hne hA.2.2 (zipWith_rect _ hrA hrM)

theorem llayer_mismatch (A M : LGrid) (c : Char)
    (hsh : lshape M ≠ lshape A) : llayer A M c = none := by
  unfold llayer
  rw [if_pos hsh]

/-- Cell-level value of the layered grid. -/
theorem llayer_cell (A M : LGrid) (c : Char) (hA : A.WF) (hM : M.WF)
    (hsh : lshape M = lshape A) {i j : Nat} (hi : i < lheight A)
    (hj : j < lwidth A) :
    lcell ⟨List.zipWith (List.zipWith (maskChar c)) A.s M.s,
        A.halign, A.valign, A.hfill, A.vfill⟩ i j =
      if lcell M i j = c then lcell A i j else lcell M i j := by
  have hwM : lwidth M = lwidth A := congrArg Prod.snd hsh
  have hhM : M.s.length = A.s.length := congrArg Prod.fst hsh
  have hiA : i < A.s.length := hi
  have hiM : i < M.s.length := by omega
  have hiZ : i < (List.zipWith (List.zipWith (maskChar c)) A.s M.s).length := by
    rw [List.length_zipWith]; omega
  have hjA : j < A.s[i].length := by
    rw [hA.2.1 _ (List.getElem_mem hiA)]; exact hj
  have hjM : j < M.s[i].length := by
    rw [hM.2.1 _ (List.getElem_mem hiM), hwM]; exact hj
  have hjZ : j < (List.zipWith (List.zipWith (maskChar c)) A.s M.s)[i].length := by
    rw [List.getElem_zipWith, List.length_zipWith]
    omega
  show (((List.zipWith (List.zipWith (maskChar c)) A.s M.s).getD i []).getD j ' ') = _
  rw [List.getD_eq_getElem _ _ hiZ, List.getD_eq_getElem _ _ hjZ]
  simp only [List.getElem_zipWith]
  unfold lcell maskChar
  rw [List.getD_eq_getElem _ _ hiA, List.getD_eq_getElem _ _ hjA,
    List.getD_eq_getElem _ _ hiM, List.getD_eq_getElem _ _ hjM]

theorem zipWith_append_rect {α : Type} {s1 s2 : List (List α)} {w1 w2 : Nat}
    (h1 : ∀ r ∈ s1, r.length = w1) (h2 : ∀ r ∈ s2, r.length = w2) :
    ∀ r ∈ List.zipWith (· ++ ·) s1 s2, r.length = w1 + w2 := by
  induction s1 generalizing s2 with
  | nil => simp
  | cons a t ih =>
      cases s2 with
      | nil => simp
      | cons b t2 =>
          intro x hx
          rcases List.mem_cons.mp (by simpa using hx) with rfl | hx'
          · rw [List.length_append, h1 a (List.mem_cons_self _ _),
              h2 b (List.mem_cons_self _ _)]
          · exact ih (fun y hy => h1 y (List.mem_cons_of_mem _ hy))
              (fun y hy => h2 y (List.mem_cons_of_mem _ hy)) x hx'

/-- `Str2D.__add__` on two well-formed grids of equal height: both
normalisations are no-ops and the result joins the rows pairwise,
keeping the left operand's attributes. -/
theorem ladd_spec (a b : LGrid) (ha : a.WF) (hb : b.WF)
    (hh : lheight a = lheight b) :
    ladd a b =
      some ⟨List.zipWith (· ++ ·) a.s b.s,
        a.halign, a.valign, a.hfill, a.vfill⟩ := by
  have hmax : max (lheight a) (lheight b) = a.s.length := by
    unfold lheight at hh ⊢; omega
  simp only [ladd, hmax, Option.bind_eq_bind]
  rw [lnormHeight_noop _ _ (by simp), lnormWidth_noop _ _ ha.1 ha.2.2 ha.2.1]
  rw [lnormHeight_noop _ _ (by simp [lheight] at hh ⊢; omega),
    lnormWidth_noop _ _ hb.1 hb.2.2 hb.2.1]
  simp only [Option.bind_eq_bind, Option.some_bind]
  have hne : List.zipWith (· ++ ·) a.s b.s ≠ [] := by
    have : (List.zipWith (· ++ ·) a.s b.s).length = a.s.length := by
      rw [List.length_zipWith]
      unfold lheight at hh
      omega
    intro hcon
    rw [hcon] at this
    exact ha.1 (List.length_eq_zero.mp this.symm)
  exact lmk_noop _ _ _ _ hne ha.2.2 (zipWith_append_rect ha.2.1 hb.2.1)

/-- `Str2D.__truediv__` on two well-formed grids of equal width: the
constructor pass is a no-op on the concatenated rows. -/
theorem ldiv_spec (a b : LGrid) (ha : a.WF) (hb : b.WF)
    (hw : lwidth a = lwidth b) :
    ldiv a b =
      some ⟨a.s ++ b.s, a.halign, a.valign, a.hfill, a.vfill⟩ := by
  unfold ldiv
  refine lmk_noop (w := lwidth a) _ _ _ _ ?_ ha.2.2 ?_
  · intro hcon
    exact ha.1 (List.append_eq_nil.mp hcon).1
  · intro r hr
    rcases List.mem_append.mp hr with h | h
    · exact ha.2.1 r h
    · rw [hb.2.1 r h, hw]

theorem lwidth_mk {rows : List (List Char)} {w : Nat} (hne : rows ≠ [])
    (hrect : ∀ r ∈ rows, r.length = w) (ha va hf vf : String) :
    lwidth ⟨rows, ha, va, hf, vf⟩ = w := by
  unfold lwidth
  refine Modern.listMax_const (by simpa using hne) ?_
  intro x hx
  obtain ⟨r, hr, rfl⟩ := List.mem_map.mp hx
  exact hrect r hr

theorem WF_mk {rows : List (List Char)} {w : Nat} (hne : rows ≠ [])
    (hrect : ∀ r ∈ rows, r.length = w) {hf : String} (hfl : hf.length ≤ 1)
    (ha va vf : String) : LGrid.WF ⟨rows, ha, va, hf, vf⟩ :=
  ⟨hne, fun r hr => by rw [hrect r hr, lwidth_mk hne hrect], hfl⟩

theorem lmulGo_spec (A : LGrid) (hA : A.WF) :
    ∀ n, 1 ≤ n → ∃ R, lmulGo A n = some R ∧ R.WF ∧
      lheight R = lheight A ∧ lwidth R = n * lwidth A ∧
      R.halign = A.halign ∧ R.valign = A.valign ∧
      R.hfill = A.hfill ∧ R.vfill = A.vfill := by
  intro n hn
  induction n with
  | zero => omega
  | succ m ih =>
      match m, ih with
      | 0, _ =>
          exact ⟨A, rfl, hA, rfl, by simp, rfl, rfl, rfl, rfl⟩
      | m + 1, ih =>
          obtain ⟨R, hR, hRWF, hRh, hRw, hk1, hk2, hk3, hk4⟩ := ih (by omega)
          have hadd := ladd_spec R A hRWF hA hRh
          have hZne : List.zipWith (· ++ ·) R.s A.s ≠ [] := by
            have : (List.zipWith (· ++ ·) R.s A.s).length = R.s.length := by
              rw [List.length_zipWith]
              have : R.s.length = A.s.length := hRh
              omega
            intro hcon
            rw [hcon] at this
            exact hRWF.1 (List.length_eq_zero.mp this.symm)
          have hZrect := zipWith_append_rect hRWF.2.1 hA.2.1
          refine ⟨⟨List.zipWith (· ++ ·) R.s A.s, R.halign, R.valign,
            R.hfill, R.vfill⟩, ?_, ?_, ?_, ?_, hk1, hk2, hk3, hk4⟩
          · show (do
              let p ← lmulGo A (m + 1)
              ladd p A) = _
            rw [hR]
            simp only [Option.bind_eq_bind, Option.some_bind]
            exact hadd
          · exact WF_mk hZne hZrect hRWF.2.2 R.halign R.valign R.vfill
          · show (List.zipWith (· ++ ·) R.s A.s).length = A.s.length
            rw [List.length_zipWith]
            have : R.s.length = A.s.length := hRh
            omega
          · show lwidth _ = (m + 1 + 1) * lwidth A
            rw [lwidth_mk hZne hZrect, hRw]
            ring

theorem lfdivGo_spec (A : LGrid) (hA : A.WF) :
    ∀ n, 1 ≤ n → ∃ R, lfdivGo A n = some R ∧ R.WF ∧
      lheight R = n * lheight A ∧ lwidth R = lwidth A ∧
      R.halign = A.halign ∧ R.valign = A.valign ∧
      R.hfill = A.hfill ∧ R.vfill = A.vfill := by
  intro n hn
  induction n with
  | zero => omega
  | succ m ih =>
      match m, ih with
      | 0, _ =>
          exact ⟨A, rfl, hA, by simp [lheight], rfl, rfl, rfl, rfl, rfl⟩
      | m + 1, ih =>
          obtain ⟨R, hR, hRWF, hRh, hRw, hk1, hk2, hk3, hk4⟩ := ih (by omega)
          have hdiv := ldiv_spec R A hRWF hA (by rw [hRw])
          have hZne : R.s ++ A.s ≠ [] := by
            intro hcon
            exact hRWF.1 (List.append_eq_nil.mp hcon).1
          have hZrect : ∀ r ∈ R.s ++ A.s, r.length = lwidth A := by
            intro r hr
            rcases List.mem_append.mp hr with h | h
            · rw [hRWF.2.1 r h, hRw]
            · exact hA.2.1 r h
          refine ⟨⟨R.s ++ A.s, R.halign, R.valign, R.hfill, R.vfill⟩,
            ?_, ?_, ?_, ?_, hk1, hk2, hk3, hk4⟩
          · show (do
              let p ← lfdivGo A (m + 1)
              ldiv p A) = _
            rw [hR]
            simp only [Option.bind_eq_bind, Option.some_bind]
            exact hdiv
          · exact WF_mk hZne hZrect hRWF.2.2 R.halign R.valign R.vfill
          · show (R.s ++ A.s).length = (m + 1 + 1) * lheight A
            rw [List.length_append]
            have h1 : R.s.length = (m + 1) * lheight A := hRh
            rw [h1]
            show (m + 1) * lheight A + lheight A = (m + 1 + 1) * lheight A
            ring
          · exact lwidth_mk hZne hZrect R.halign R.valign R.hfill R.vfill

end Legacy

namespace Modern

theorem validate_fill_some {fs : FillSpec} {f : Cell}
    (h : validate_fill fs = some f) : f.alpha = 0 ∨ f.alpha = 1 := by
  cases fs with
  | nofill => cases h; simp
  | str s =>
      simp only [validate_fill] at h
      split_ifs at h
      cases h
      simp
  | pair s a =>
      simp only [validate_fill] at h
      split_ifs at h with hc
      cases h
      exact hc.2

theorem validate_halign_some {s t : String}
    (h : validate_halign s = some t) : t ∈ validHaligns := by
  simp only [validate_halign] at h
  split_ifs at h with hm
  cases h
  exact hm

theorem validate_valign_some {s t : String}
    (h : validate_valign s = some t) : t ∈ validValigns := by
  simp only [validate_valign] at h
  split_ifs at h with hm
  cases h
  exact hm

theorem validateFillCell_some {f f' : Cell}
    (h : validateFillCell f = some f') :
    f' = f ∧ (f.alpha = 0 ∨ f.alpha = 1) := by
  unfold validateFillCell at h
  split_ifs at h with hc
  cases h
  exact ⟨rfl, hc⟩

/-- Inversion of the structured-array constructor: on success the data
is passed through unchanged and the stored configuration is validated. -/
theorem mkStruct_some {h w : Nat} {d : List (List Cell)} {ha va : String}
    {f : Cell} {G : Grid} (hmk : mkStruct h w d ha va f = some G) :
    G.h = h ∧ G.w = w ∧ G.data = d ∧ G.halign ∈ validHaligns ∧
      G.valign ∈ validValigns ∧ (G.fill.alpha = 0 ∨ G.fill.alpha = 1) := by
  unfold mkStruct at hmk
  simp only [Option.bind_eq_bind, Option.bind_eq_some] at hmk
  obtain ⟨f', hf', ha', hha', va', hva', hG⟩ := hmk
  obtain ⟨rfl, hfa⟩ := validateFillCell_some hf'
  cases hG
  refine ⟨rfl, rfl, padConstant_zero .., validate_halign_some hha',
    validate_valign_some hva', hfa⟩

theorem mkStruct_WF {h w : Nat} {d : List (List Cell)} {ha va : String}
    {f : Cell} {G : Grid} (hmk : mkStruct h w d ha va f = some G)
    (hd : dataWF h w d) : G.Valid := by
  obtain ⟨h1, h2, h3, h4, h5, h6⟩ := mkStruct_some hmk
  exact ⟨by rw [Grid.WF, h1, h2, h3]; exact hd, h4, h5, h6⟩

theorem headD_mem {α : Type} {l : List α} (h : l ≠ []) (d : α) :
    l.headD d ∈ l := by
  cases l with
  | nil => exact absurd rfl h
  | cons a t => exact List.mem_cons_self ..

theorem getLastD_mem {α : Type} {l : List α} (h : l ≠ []) (d : α) :
    l.getLastD d ∈ l := by
  rw [List.getLastD_eq_getLast?, List.getLast?_eq_getLast _ h]
  exact List.getLast_mem h

theorem padConstant_WF {h w : Nat} {d : List (List Cell)}
    (hd : dataWF h w d) (t b l r : Nat) (f : Cell) :
    dataWF (t + h + b) (l + w + r) (padConstant t b l r f w d) := by
  constructor
  · simp [padConstant, hd.1]
    omega
  · intro row hrow
    unfold padConstant at hrow
    rcases List.mem_append.mp hrow with hx | hx
    · rcases List.mem_append.mp hx with hx' | hx'
      · rw [List.eq_of_mem_replicate hx']
        simp
      · obtain ⟨r0, hr0, rfl⟩ := List.mem_map.mp hx'
        simp [padRowC, hd.2 r0 hr0]
        omega
    · rw [List.eq_of_mem_replicate hx]
      simp

theorem padEdge_WF {h w : Nat} {d : List (List Cell)}
    (hd : dataWF h w d) (hne : 1 ≤ h) (t b l r : Nat) :
    dataWF (t + h + b) (l + w + r) (padEdge t b l r d) := by
  have hrowlen : ∀ row ∈ d.map (padRowE l r), row.length = l + w + r := by
    intro row hrow
    obtain ⟨r0, hr0, rfl⟩ := List.mem_map.mp hrow
    simp [padRowE, hd.2 r0 hr0]
    omega
  have hmapne : d.map (padRowE l r) ≠ [] := by
    have : d ≠ [] := by
      intro hcon
      rw [hcon] at hd
      simp [dataWF] at hd
      omega
    simpa using this
  constructor
  · simp [padEdge, hd.1]
    omega
  · intro row hrow
    unfold padEdge at hrow
    rcases List.mem_append.mp hrow with hx | hx
    · rcases List.mem_append.mp hx with hx' | hx'
      · rw [List.eq_of_mem_replicate hx']
        exact hrowlen _ (headD_mem hmapne _)
      · exact hrowlen _ hx'
    · rw [List.eq_of_mem_replicate hx]
      exact hrowlen _ (getLastD_mem hmapne _)

theorem getD_replicate {α : Type} (n i : Nat) (a d : α) :
    (List.replicate n a).getD i d = if i < n then a else d := by
  by_cases h : i < n
  · rw [if_pos h, List.getD_eq_getElem _ _ (by simpa using h),
      List.getElem_replicate]
  · rw [if_neg h, List.getD_eq_default _ _ (by simpa using Nat.le_of_not_lt h)]

/-- Cell of a constant-padded array. -/
theorem cellAt_padConstant {h w : Nat} {d : List (List Cell)}
    (hd : dataWF h w d) (t b l r : Nat) (f : Cell) {i j : Nat}
    (hi : i < t + h + b) (hj : j < l + w + r) :
    cellAt (padConstant t b l r f w d) i j =
      if t ≤ i ∧ i - t < h ∧ l ≤ j ∧ j - l < w then
        cellAt d (i - t) (j - l)
      else f := by
  unfold padConstant cellAt
  by_cases him : i < t + h
  · rw [List.getD_append _ _ _ _ (show i <
      (List.replicate t (List.replicate (l + w + r) f) ++
        d.map (padRowC l r f)).length by
      simp [hd.1]; omega)]
    by_cases hit : i < t
    · rw [List.getD_append _ _ _ _ (by simpa using hit), getD_replicate,
        if_pos hit, getD_replicate, if_pos hj, if_neg (by omega)]
    · rw [List.getD_append_right _ _ _ _ (by simpa using Nat.le_of_not_lt hit)]
      simp only [List.length_replicate]
      have hmh : i - t < h := by omega
      have hmap : i - t < (d.map (padRowC l r f)).length := by
        simpa [hd.1] using hmh
      rw [List.getD_eq_getElem _ _ hmap, List.getElem_map]
      have hdl : i - t < d.length := by
        rw [hd.1]
        exact hmh
      have hrow : d[i - t] = d.getD (i - t) [] :=
        (List.getD_eq_getElem _ _ _).symm
      have hrl : (d.getD (i - t) []).length = w := dataWF_row_length hd hmh
      unfold padRowC
      by_cases hjl : j < l
      · rw [List.getD_append _ _ _ _ (show j <
          (List.replicate l f ++ d[i - t]).length by
          rw [List.length_append, List.length_replicate, hrow, hrl]; omega)]
        rw [List.getD_append _ _ _ _ (by simpa using hjl), getD_replicate,
          if_pos hjl, if_neg (by omega)]
      · by_cases hjw : j - l < w
        · rw [List.getD_append _ _ _ _ (show j <
            (List.replicate l f ++ d[i - t]).length by
            rw [List.length_append, List.length_replicate, hrow, hrl]; omega)]
          rw [List.getD_append_right _ _ _ _
            (by simpa using Nat.le_of_not_lt hjl)]
          simp only [List.length_replicate]
          rw [hrow, if_pos (by omega)]
        · rw [List.getD_append_right _ _ _ _ (show
            (List.replicate l f ++ d[i - t]).length
              ≤ j by
            rw [List.length_append, List.length_replicate, hrow, hrl]; omega)]
          rw [getD_replicate]
          simp only [List.length_append, List.length_replicate]
          rw [hrow, hrl, if_pos (by omega), if_neg (by omega)]
  · rw [List.getD_append_right _ _ _ _ (show
      (List.replicate t (List.replicate (l + w + r) f) ++
        d.map (padRowC l r f)).length ≤ i by simp [hd.1]; omega)]
    rw [getD_replicate]
    simp only [List.length_append, List.length_replicate, List.length_map, hd.1]
    rw [if_pos (by omega), getD_replicate, if_pos hj, if_neg (by omega)]

theorem expandTop_le (va : String) (y : Nat) : expandTop va y ≤ y := by
  unfold expandTop
  split <;> omega

theorem expandLeft_le (ha : String) (x : Nat) : expandLeft ha x ≤ x := by
  unfold expandLeft
  split <;> omega

theorem expandTop_zero (va : String) : expandTop va 0 = 0 := by
  unfold expandTop
  split <;> omega

theorem expandLeft_zero (ha : String) : expandLeft ha 0 = 0 := by
  unfold expandLeft
  split <;> omega

/-- Closed form of `Str2D.expand` on a validated grid. -/
theorem expand_eq (g : Grid) (hg : g.Valid) (x y : Nat) (mode : PadMode) :
    g.expand x y mode =
      some ⟨expandTop g.valign y + g.h + (y - expandTop g.valign y),
        expandLeft g.halign x + g.w + (x - expandLeft g.halign x),
        structPad mode (expandTop g.valign y) (y - expandTop g.valign y)
          (expandLeft g.halign x) (x - expandLeft g.halign x) g.fill g.w g.data,
        g.halign, g.valign, g.fill⟩ := by
  obtain ⟨hWF, hha, hva, hf⟩ := hg
  unfold Grid.expand Grid.pad
  rw [validateFillCell_valid hf]
  simp only [Option.bind_eq_bind, Option.some_bind]
  exact mkStruct_valid hha hva hf _ _ _

/-- `expand(y=δ)` (the vertical-only expansion used by `__add__`) in
constant mode. -/
theorem expandY_eq (g : Grid) (hg : g.Valid) (y : Nat) :
    g.expand 0 y .constant =
      some ⟨expandTop g.valign y + g.h + (y - expandTop g.valign y), g.w,
        padConstant (expandTop g.valign y) (y - expandTop g.valign y) 0 0
          g.fill g.w g.data,
        g.halign, g.valign, g.fill⟩ := by
  rw [expand_eq g hg 0 y .constant]
  simp [expandLeft_zero, structPad]

theorem hstack_WF {h wa wb : Nat} {d1 d2 : List (List Cell)}
    (h1 : dataWF h wa d1) (h2 : dataWF h wb d2) :
    dataWF h (wa + wb) (hstackData d1 d2) := by
  constructor
  · unfold hstackData
    rw [List.length_zipWith, h1.1, h2.1, min_self]
  · exact Legacy.zipWith_append_rect h1.2 h2.2

theorem cellAt_hstack_left {h wa wb : Nat} {d1 d2 : List (List Cell)}
    (h1 : dataWF h wa d1) (h2 : dataWF h wb d2) {i j : Nat}
    (hi : i < h) (hj : j < wa) :
    cellAt (hstackData d1 d2) i j = cellAt d1 i j := by
  have hiz : i < (hstackData d1 d2).length := by
    rw [(hstack_WF h1 h2).1]; exact hi
  have hi1 : i < d1.length := by rw [h1.1]; exact hi
  have hi2 : i < d2.length := by rw [h2.1]; exact hi
  unfold cellAt
  rw [List.getD_eq_getElem _ _ hiz, List.getD_eq_getElem _ _ hi1]
  show (List.zipWith (· ++ ·) d1 d2)[i].getD j defCell = _
  rw [List.getElem_zipWith]
  rw [List.getD_append _ _ _ _ (by rw [h1.2 _ (List.getElem_mem hi1)]; exact hj)]

theorem cellAt_hstack_right {h wa wb : Nat} {d1 d2 : List (List Cell)}
    (h1 : dataWF h wa d1) (h2 : dataWF h wb d2) {i j : Nat}
    (hi : i < h) (_hj : j < wb) :
    cellAt (hstackData d1 d2) i (wa + j) = cellAt d2 i j := by
  have hiz : i < (hstackData d1 d2).length := by
    rw [(hstack_WF h1 h2).1]; exact hi
  have hi1 : i < d1.length := by rw [h1.1]; exact hi
  have hi2 : i < d2.length := by rw [h2.1]; exact hi
  unfold cellAt
  rw [List.getD_eq_getElem _ _ hiz, List.getD_eq_getElem _ _ hi2]
  show (List.zipWith (· ++ ·) d1 d2)[i].getD (wa + j) defCell = _
  rw [List.getElem_zipWith]
  rw [List.getD_append_right _ _ _ _
    (by rw [h1.2 _ (List.getElem_mem hi1)]; omega)]
  rw [h1.2 _ (List.getElem_mem hi1)]
  congr 1
  omega

/-- Closed behaviour of `Str2D.__add__` on two validated grids: the
result exists, has the common maximum height and joint width, keeps the
left operand's configuration, and each half holds the corresponding
operand expanded vertically by its own `valign` rule (fill elsewhere). -/
theorem add_spec (A B : Grid) (hA : A.Valid) (hB : B.Valid) :
    ∃ R, A.add B = some R ∧ R.Valid ∧ R.h = max A.h B.h ∧ R.w = A.w + B.w ∧
      R.halign = A.halign ∧ R.valign = A.valign ∧ R.fill = A.fill ∧
      (∀ i, i < max A.h B.h → ∀ j, j < A.w →
        R.cell i j =
          if expandTop A.valign (max A.h B.h - A.h) ≤ i ∧
              i - expandTop A.valign (max A.h B.h - A.h) < A.h then
            A.cell (i - expandTop A.valign (max A.h B.h - A.h)) j
          else A.fill) ∧
      (∀ i, i < max A.h B.h → ∀ j, j < B.w →
        R.cell i (A.w + j) =
          if expandTop B.valign (max A.h B.h - B.h) ≤ i ∧
              i - expandTop B.valign (max A.h B.h - B.h) < B.h then
            B.cell (i - expandTop B.valign (max A.h B.h - B.h)) j
          else B.fill) := by
  obtain ⟨hAWF, hAha, hAva, hAf⟩ := hA
  obtain ⟨hBWF, hBha, hBva, hBf⟩ := hB
  have hta := expandTop_le A.valign (max A.h B.h - A.h)
  have htb := expandTop_le B.valign (max A.h B.h - B.h)
  have e1 : expandTop A.valign (max A.h B.h - A.h) + A.h +
      (max A.h B.h - A.h - expandTop A.valign (max A.h B.h - A.h)) =
      max A.h B.h := by omega
  have e2 : expandTop B.valign (max A.h B.h - B.h) + B.h +
      (max A.h B.h - B.h - expandTop B.valign (max A.h B.h - B.h)) =
      max A.h B.h := by omega
  have e3 : (0 : Nat) + A.w + 0 = A.w := by omega
  have e4 : (0 : Nat) + B.w + 0 = B.w := by omega
  have hdL : dataWF (max A.h B.h) A.w
      (padConstant (expandTop A.valign (max A.h B.h - A.h))
        (max A.h B.h - A.h - expandTop A.valign (max A.h B.h - A.h)) 0 0
        A.fill A.w A.data) := by
    have := padConstant_WF hAWF (expandTop A.valign (max A.h B.h - A.h))
      (max A.h B.h - A.h - expandTop A.valign (max A.h B.h - A.h)) 0 0 A.fill
    rwa [e1, e3] at this
  have hdR : dataWF (max A.h B.h) B.w
      (padConstant (expandTop B.valign (max A.h B.h - B.h))
        (max A.h B.h - B.h - expandTop B.valign (max A.h B.h - B.h)) 0 0
        B.fill B.w B.data) := by
    have := padConstant_WF hBWF (expandTop B.valign (max A.h B.h - B.h))
      (max A.h B.h - B.h - expandTop B.valign (max A.h B.h - B.h)) 0 0 B.fill
    rwa [e2, e4] at this
  refine ⟨⟨max A.h B.h, A.w + B.w,
      hstackData
        (padConstant (expandTop A.valign (max A.h B.h - A.h))
          (max A.h B.h - A.h - expandTop A.valign (max A.h B.h - A.h)) 0 0
          A.fill A.w A.data)
        (padConstant (expandTop B.valign (max A.h B.h - B.h))
          (max A.h B.h - B.h - expandTop B.valign (max A.h B.h - B.h)) 0 0
          B.fill B.w B.data),
      A.halign, A.valign, A.fill⟩, ?_, ?_, rfl, rfl, rfl, rfl, rfl, ?_, ?_⟩
  · simp only [Grid.add]
    rw [expandY_eq A ⟨hAWF, hAha, hAva, hAf⟩ (max A.h B.h - A.h),
      expandY_eq B ⟨hBWF, hBha, hBva, hBf⟩ (max A.h B.h - B.h)]
    simp only [Option.bind_eq_bind, Option.some_bind]
    exact mkStruct_valid hAha hAva hAf _ _ _
  · exact ⟨hstack_WF hdL hdR, hAha, hAva, hAf⟩
  · intro i hi j hj
    rw [cell_eq_cellAt]
    show cellAt (hstackData _ _) i j = _
    rw [cellAt_hstack_left hdL hdR hi hj,
      cellAt_padConstant hAWF _ _ _ _ _ (by omega) (by omega)]
    by_cases hc : expandTop A.valign (max A.h B.h - A.h) ≤ i ∧
        i - expandTop A.valign (max A.h B.h - A.h) < A.h
    · rw [if_pos ⟨hc.1, hc.2, by omega, by omega⟩, if_pos hc]
      rfl
    · rw [if_neg (by tauto), if_neg hc]
  · intro i hi j hj
    rw [cell_eq_cellAt]
    show cellAt (hstackData _ _) i (A.w + j) = _
    rw [cellAt_hstack_right hdL hdR hi hj,
      cellAt_padConstant hBWF _ _ _ _ _ (by omega) (by omega)]
    by_cases hc : expandTop B.valign (max A.h B.h - B.h) ≤ i ∧
        i - expandTop B.valign (max A.h B.h - B.h) < B.h
    · rw [if_pos ⟨hc.1, hc.2, by omega, by omega⟩, if_pos hc]
      rfl
    · rw [if_neg (by tauto), if_neg hc]

theorem splitOnNl_no_nl {l : List Char} (h : '\n' ∉ l) : splitOnNl l = [l] := by
  induction l with
  | nil => rfl
  | cons c cs ih =>
      have hc : c ≠ '\n' := fun hcon => h (hcon ▸ List.mem_cons_self _ _)
      have hcs := ih (fun hcon => h (List.mem_cons_of_mem _ hcon))
      simp only [splitOnNl, hcs, if_neg hc]
      rfl

theorem normNl_no_cr {l : List Char} (h : '\r' ∉ l) : normNl l = l := by
  induction l with
  | nil => rfl
  | cons c cs ih =>
      cases cs with
      | nil => rfl
      | cons d ds =>
          have hcr : ¬(c = '\r' ∧ d = '\n') := by
            intro hcon
            exact h (hcon.1 ▸ List.mem_cons_self _ _)
          simp only [normNl]
          rw [if_neg hcr]
          congr 1
          exact ih (fun hm => h (List.mem_cons_of_mem _ hm))

theorem normNl_ne_nil {l : List Char} (h : l ≠ []) : normNl l ≠ [] := by
  cases l with
  | nil => exact absurd rfl h
  | cons c cs =>
      cases cs with
      | nil => exact fun hcon => List.noConfusion hcon
      | cons d ds =>
          simp only [normNl]
          split_ifs <;> exact fun hcon => List.noConfusion hcon

theorem splitBreaks_no_break {l : List Char}
    (h : ∀ c ∈ l, isLineBreak c = false) : splitBreaks l = [l] := by
  induction l with
  | nil => rfl
  | cons c cs ih =>
      have hc : isLineBreak c = false := h c (List.mem_cons_self _ _)
      have hcs := ih (fun x hx => h x (List.mem_cons_of_mem _ hx))
      simp only [splitBreaks, hcs,
        if_neg (show ¬ isLineBreak c = true by simp [hc])]
      rfl

theorem splitBreaks_ne_nil (l : List Char) : splitBreaks l ≠ [] := by
  cases l with
  | nil => exact fun h => List.noConfusion h
  | cons c cs =>
      simp only [splitBreaks]
      split_ifs <;> exact fun h => List.noConfusion h

theorem splitBreaks_len2 {l : List Char}
    (h : ∃ c ∈ l, isLineBreak c = true) :
    2 ≤ (splitBreaks l).length := by
  induction l with
  | nil =>
      obtain ⟨c, hc, -⟩ := h
      cases hc
  | cons c cs ih =>
      simp only [splitBreaks]
      by_cases hc : isLineBreak c = true
      · rw [if_pos hc]
        have := List.length_pos.mpr (splitBreaks_ne_nil cs)
        simp only [List.length_cons]
        omega
      · rw [if_neg hc]
        obtain ⟨x, hx, hxb⟩ := h
        have hmem : ∃ y ∈ cs, isLineBreak y = true := by
          rcases List.mem_cons.mp hx with rfl | hx2
          · exact absurd hxb hc
          · exact ⟨x, hx2, hxb⟩
        have h2 := ih hmem
        simp only [List.length_cons]
        have h3 : (splitBreaks cs).tail.length = (splitBreaks cs).length - 1 :=
          List.length_tail _
        omega

/-- The parse of a string free of line boundaries: the single line of
all its characters. -/
theorem pySplitlines_no_break {s : String} (hne : s.toList ≠ [])
    (h : ∀ c ∈ s.toList, isLineBreak c = false) :
    pySplitlines s = [s.toList] := by
  have hcr : '\r' ∉ s.toList := fun hm => absurd (h _ hm) (by decide)
  simp only [pySplitlines]
  rw [normNl_no_cr hcr, if_neg (by simpa using hne)]
  have hlast : ¬ (s.toList.getLast?.map isLineBreak).getD false = true := by
    intro hcon
    rw [List.getLast?_eq_getLast _ hne] at hcon
    have hcon2 : isLineBreak (s.toList.getLast hne) = true := hcon
    rw [h _ (List.getLast_mem hne)] at hcon2
    exact Bool.noConfusion hcon2
  rw [if_neg hlast, splitBreaks_no_break h]

theorem pySplitlines_empty : pySplitlines "" = [] := rfl

theorem listMax_singleton (x : Nat) : listMax [x] = x := by
  simp [listMax]

/-- The lift of a non-empty string free of line boundaries: a single
fully-visible row of its characters. -/
theorem liftStr_single {s : String} (hne : s.toList ≠ [])
    (hnl : ∀ c ∈ s.toList, isLineBreak c = false) :
    liftStr s = some ⟨1, s.toList.length,
      [(List.range s.toList.length).map fun j => ⟨s.toList.getD j ' ', 1⟩],
      "left", "top", ⟨' ', 0⟩⟩ := by
  unfold liftStr
  rw [construct_eq s none none (by decide) (by decide) (by rfl)]
  rw [pySplitlines_no_break hne hnl]
  have hH : stringHeight [s.toList] ((none : Option Nat).getD 0) = 1 := by
    simp [stringHeight]
  have hW : stringWidth [s.toList] ((none : Option Nat).getD 0) =
      s.toList.length := by
    simp [stringWidth, listMax_singleton]
  rw [hH, hW]
  congr 1
  congr 1
  unfold stringData
  rw [hH, hW]
  show genData 1 s.toList.length _ = _
  unfold genData
  show [(List.range s.toList.length).map _] = _
  congr 1
  refine List.map_congr_left fun j hj => ?_
  have hj' : j < s.toList.length := List.mem_range.mp hj
  simp only [show ∀ a b : Nat, startV "top" a b = 0 from fun _ _ => rfl,
    show ∀ a b : Nat, startH "left" a b = 0 from fun _ _ => rfl]
  simp [hj']
  exact hj'

theorem expandTop_top (y : Nat) : expandTop "top" y = 0 := rfl

theorem padEdge_single (b : Nat) (row : List Cell) :
    padEdge 0 b 0 0 [row] = List.replicate (b + 1) row := by
  unfold padEdge padRowE
  simp [List.replicate_succ]

theorem hstackData_nil_right (d : List (List Cell)) :
    hstackData d (List.replicate d.length []) = d := by
  unfold hstackData
  induction d with
  | nil => rfl
  | cons r t ih =>
      rw [List.length_cons, List.replicate_succ]
      simp [ih]

/-- `A + ""`: the empty string lifts to a `(0, 0)` grid, the expansion
mode is `'constant'`, and the join returns `A` itself. -/
theorem addStr_empty (A : Grid) (hA : A.Valid) : A.addStr "" = some A := by
  obtain ⟨hAWF, hAha, hAva, hAf⟩ := hA
  have hB : liftStr "" = some ⟨0, 0, [], "left", "top", ⟨' ', 0⟩⟩ := by
    unfold liftStr
    rw [construct_eq "" none none (by decide) (by decide) (by rfl)]
    rfl
  simp only [Grid.addStr, hB, Option.bind_eq_bind, Option.some_bind]
  have hm : (if True then PadMode.constant else PadMode.edge)
      = PadMode.constant := rfl
  rw [hm]
  have hy : max A.h 0 - A.h = 0 := by omega
  have hz : max A.h 0 - 0 = A.h := by omega
  rw [hy, hz, expandY_eq A ⟨hAWF, hAha, hAva, hAf⟩ 0]
  simp only [Option.some_bind]
  have hBval : Grid.Valid ⟨0, 0, [], "left", "top", ⟨' ', 0⟩⟩ :=
    ⟨⟨rfl, by simp⟩, by decide, by decide, Or.inl rfl⟩
  rw [expandY_eq ⟨0, 0, [], "left", "top", ⟨' ', 0⟩⟩ hBval A.h]
  simp only [Option.some_bind]
  simp only [expandTop_zero, expandTop_top, Nat.sub_zero, Nat.sub_self,
    Nat.zero_add, Nat.add_zero, padConstant_zero]
  have hpc : padConstant 0 A.h 0 0 (⟨' ', 0⟩ : Cell) 0 ([] : List (List Cell))
      = List.replicate A.h [] := by
    simp [padConstant]
  rw [hpc]
  have hstk : hstackData A.data (List.replicate A.h []) = A.data := by
    rw [← hAWF.1]
    exact hstackData_nil_right A.data
  rw [hstk]
  have hmax : max A.h 0 = A.h := by omega
  rw [hmax, mkStruct_valid hAha hAva hAf _ _ _]

/-- `Str2D.__add__` with a non-empty newline-free string: the string
lifts to a single fully-visible row, the left operand expands to
`max(A.h, 1)` by its own valign in constant mode, and the lifted row
expands in edge mode, so every row of the right half repeats the
string's characters. -/
theorem addStr_spec (A : Grid) (hA : A.Valid) (s : String)
    (hne : s.toList ≠ []) (hnl : ∀ c ∈ s.toList, isLineBreak c = false) :
    ∃ R, A.addStr s = some R ∧ R.Valid ∧ R.h = max A.h 1 ∧
      R.w = A.w + s.toList.length ∧
      R.halign = A.halign ∧ R.valign = A.valign ∧ R.fill = A.fill ∧
      (∀ i, i < max A.h 1 → ∀ j, j < A.w →
        R.cell i j =
          if expandTop A.valign (max A.h 1 - A.h) ≤ i ∧
              i - expandTop A.valign (max A.h 1 - A.h) < A.h then
            A.cell (i - expandTop A.valign (max A.h 1 - A.h)) j
          else A.fill) ∧
      (∀ i, i < max A.h 1 → ∀ j, j < s.toList.length →
        R.cell i (A.w + j) = ⟨s.toList.getD j ' ', 1⟩) := by
  obtain ⟨hAWF, hAha, hAva, hAf⟩ := hA
  have hta := expandTop_le A.valign (max A.h 1 - A.h)
  have e1 : expandTop A.valign (max A.h 1 - A.h) + A.h +
      (max A.h 1 - A.h - expandTop A.valign (max A.h 1 - A.h)) = max A.h 1 := by
    omega
  have e3 : (0 : Nat) + A.w + 0 = A.w := by omega
  have hdL : dataWF (max A.h 1) A.w
      (padConstant (expandTop A.valign (max A.h 1 - A.h))
        (max A.h 1 - A.h - expandTop A.valign (max A.h 1 - A.h)) 0 0
        A.fill A.w A.data) := by
    have := padConstant_WF hAWF (expandTop A.valign (max A.h 1 - A.h))
      (max A.h 1 - A.h - expandTop A.valign (max A.h 1 - A.h)) 0 0 A.fill
    rwa [e1, e3] at this
  have hdR : dataWF (max A.h 1) s.toList.length
      (List.replicate (max A.h 1)
        ((List.range s.toList.length).map fun j =>
          (⟨s.toList.getD j ' ', 1⟩ : Cell))) := by
    constructor
    · simp
    · intro r hr
      rw [List.eq_of_mem_replicate hr]
      simp
  refine ⟨⟨max A.h 1, A.w + s.toList.length,
      hstackData
        (padConstant (expandTop A.valign (max A.h 1 - A.h))
          (max A.h 1 - A.h - expandTop A.valign (max A.h 1 - A.h)) 0 0
          A.fill A.w A.data)
        (List.replicate (max A.h 1)
          ((List.range s.toList.length).map fun j =>
            (⟨s.toList.getD j ' ', 1⟩ : Cell))),
      A.halign, A.valign, A.fill⟩, ?_, ?_, rfl, rfl, rfl, rfl, rfl, ?_, ?_⟩
  · have hs : ¬ s = "" := by
      intro h
      subst h
      exact hne rfl
    simp only [Grid.addStr, liftStr_single hne hnl, Option.bind_eq_bind,
      Option.some_bind]
    rw [if_neg hs]
    rw [expandY_eq A ⟨hAWF, hAha, hAva, hAf⟩ (max A.h 1 - A.h)]
    simp only [Option.some_bind]
    have hBval : Grid.Valid ⟨1, s.toList.length,
        [(List.range s.toList.length).map fun j =>
          (⟨s.toList.getD j ' ', 1⟩ : Cell)], "left", "top", ⟨' ', 0⟩⟩ := by
      refine ⟨⟨rfl, ?_⟩, show "left" ∈ validHaligns by decide,
        show "top" ∈ validValigns by decide, Or.inl rfl⟩
      intro r hr
      rw [List.mem_singleton] at hr
      rw [hr]
      simp
    rw [expand_eq _ hBval 0 (max A.h 1 - 1) .edge]
    simp only [Option.some_bind]
    simp only [expandTop_top, expandLeft_zero, structPad, Nat.sub_zero,
      Nat.zero_add, Nat.add_zero]
    rw [padEdge_single]
    rw [show max A.h 1 - 1 + 1 = max A.h 1 from by omega]
    exact mkStruct_valid hAha hAva hAf _ _ _
  · exact ⟨hstack_WF hdL hdR, hAha, hAva, hAf⟩
  · intro i hi j hj
    rw [cell_eq_cellAt]
    show cellAt (hstackData _ _) i j = _
    rw [cellAt_hstack_left hdL hdR hi hj,
      cellAt_padConstant hAWF _ _ _ _ _ (by omega) (by omega)]
    by_cases hc : expandTop A.valign (max A.h 1 - A.h) ≤ i ∧
        i - expandTop A.valign (max A.h 1 - A.h) < A.h
    · rw [if_pos ⟨hc.1, hc.2, by omega, by omega⟩, if_pos hc]
      rfl
    · rw [if_neg (by tauto), if_neg hc]
  · intro i hi j hj
    rw [cell_eq_cellAt]
    show cellAt (hstackData _ _) i (A.w + j) = _
    rw [cellAt_hstack_right hdL hdR hi hj]
    unfold cellAt
    have hrow : (List.replicate (max A.h 1)
        ((List.range s.toList.length).map fun j =>
          (⟨s.toList.getD j ' ', 1⟩ : Cell))).getD i [] =
        (List.range s.toList.length).map fun j =>
          (⟨s.toList.getD j ' ', 1⟩ : Cell) := by
      rw [List.getD_eq_getElem _ _ (by simpa using hi), List.getElem_replicate]
    rw [hrow, getD_map_range, if_pos hj]

/-- `getD` into the flattening of `n` copies of a row is `getD` at the
index mod the row length. -/
theorem flatten_replicate_getD {α : Type} (n : Nat) (r : List α) (j : Nat)
    (d : α) (hj : j < n * r.length) :
    ((List.replicate n r).flatten).getD j d = r.getD (j % r.length) d := by
  induction n generalizing j with
  | zero => omega
  | succ m ih =>
      rw [List.replicate_succ, List.flatten_cons]
      by_cases h : j < r.length
      · rw [List.getD_append _ _ _ _ h, Nat.mod_eq_of_lt h]
      · have hexp : (m + 1) * r.length = m * r.length + r.length := by ring
        rw [hexp] at hj
        have hle : r.length ≤ j := Nat.le_of_not_lt h
        rw [List.getD_append_right _ _ _ _ hle, ih (j - r.length) (by omega),
          ← Nat.mod_eq_sub_mod hle]

/-- `Str2D.__mul__` with a positive count: horizontal repetition. -/
theorem mul_spec (A : Grid) (hA : A.Valid) (n : Nat) (hn : 0 < n) :
    ∃ R, A.mul n = some R ∧ R.Valid ∧ R.h = A.h ∧ R.w = n * A.w ∧
      R.halign = A.halign ∧ R.valign = A.valign ∧ R.fill = A.fill ∧
      R.h * R.w = n * (A.h * A.w) ∧
      (∀ i, i < A.h → ∀ j, j < n * A.w → R.cell i j = A.cell i (j % A.w)) := by
  obtain ⟨hAWF, hAha, hAva, hAf⟩ := hA
  have hd : dataWF A.h (n * A.w)
      (A.data.map fun r => (List.replicate n r).flatten) := by
    constructor
    · simp [hAWF.1]
    · intro r hr
      obtain ⟨r0, hr0, rfl⟩ := List.mem_map.mp hr
      rw [@Legacy.flatten_length_rect Cell (List.replicate n r0) A.w
        (fun x hx => by rw [List.eq_of_mem_replicate hx]; exact hAWF.2 r0 hr0)]
      simp
  refine ⟨⟨A.h, n * A.w, A.data.map fun r => (List.replicate n r).flatten,
      A.halign, A.valign, A.fill⟩, ?_, ⟨hd, hAha, hAva, hAf⟩, rfl, rfl, rfl,
      rfl, rfl, by ring, ?_⟩
  · unfold Grid.mul
    rw [if_neg (by omega)]
    exact mkStruct_valid hAha hAva hAf _ _ _
  · intro i hi j hj
    have hi' : i < A.data.length := by rw [hAWF.1]; exact hi
    rw [cell_eq_cellAt]
    show cellAt (A.data.map fun r => (List.replicate n r).flatten) i j = _
    unfold cellAt
    have hrow : (A.data.map fun r => (List.replicate n r).flatten).getD i []
        = (List.replicate n (A.data.get ⟨i, hi'⟩)).flatten := by
      rw [List.getD_eq_getElem _ _ (by simpa using hi'), List.getElem_map]
      rfl
    rw [hrow]
    have hrw : (A.data.get ⟨i, hi'⟩).length = A.w :=
      hAWF.2 _ (List.get_mem A.data i hi')
    rw [flatten_replicate_getD n _ j _ (by rw [hrw]; exact hj), hrw,
      cell_eq_cellAt]
    unfold cellAt
    rw [show A.data.getD i [] = A.data.get ⟨i, hi'⟩ from
      List.getD_eq_getElem _ _ hi']

/-- `Str2D.__rmul__` with a positive count: vertical repetition. -/
theorem rmul_spec (A : Grid) (hA : A.Valid) (n : Nat) (hn : 0 < n) :
    ∃ R, A.rmul n = some R ∧ R.Valid ∧ R.h = n * A.h ∧ R.w = A.w ∧
      R.halign = A.halign ∧ R.valign = A.valign ∧ R.fill = A.fill ∧
      R.h * R.w = n * (A.h * A.w) ∧
      (∀ i, i < n * A.h → ∀ j, j < A.w → R.cell i j = A.cell (i % A.h) j) := by
  obtain ⟨hAWF, hAha, hAva, hAf⟩ := hA
  have hd : dataWF (n * A.h) A.w (List.replicate n A.data).flatten := by
    constructor
    · rw [@Legacy.flatten_length_rect (List Cell) (List.replicate n A.data) A.h
        (fun x hx => by rw [List.eq_of_mem_replicate hx]; exact hAWF.1)]
      simp [Nat.mul_comm]
    · intro r hr
      obtain ⟨l, hl, hrl⟩ := List.mem_flatten.mp hr
      rw [List.eq_of_mem_replicate hl] at hrl
      exact hAWF.2 r hrl
  refine ⟨⟨n * A.h, A.w, (List.replicate n A.data).flatten,
      A.halign, A.valign, A.fill⟩, ?_, ⟨hd, hAha, hAva, hAf⟩, rfl, rfl, rfl,
      rfl, rfl, by ring, ?_⟩
  · unfold Grid.rmul
    rw [if_neg (by omega)]
    exact mkStruct_valid hAha hAva hAf _ _ _
  · intro i hi j hj
    rw [cell_eq_cellAt]
    show cellAt (List.replicate n A.data).flatten i j = _
    unfold cellAt
    rw [show ((List.replicate n A.data).flatten).getD i [] =
        A.data.getD (i % A.data.length) [] from
      flatten_replicate_getD n A.data i [] (by rw [hAWF.1]; exact hi),
      hAWF.1, cell_eq_cellAt]
    rfl

theorem getD_drop {α : Type} (l : List α) (n m : Nat) (d : α)
    (h : n + m < l.length) : (l.drop n).getD m d = l.getD (n + m) d := by
  rw [List.getD_eq_getElem _ _ (by rw [List.length_drop]; omega),
    List.getD_eq_getElem _ _ h]
  rw [List.getElem_drop]

theorem getD_take {α : Type} (l : List α) (n m : Nat) (d : α)
    (h1 : m < n) (h2 : m < l.length) :
    (l.take n).getD m d = l.getD m d := by
  rw [List.getD_eq_getElem _ _ (by rw [List.length_take]; omega),
    List.getD_eq_getElem _ _ h2]
  rw [List.getElem_take]

/-- The normalised shift of `np.roll` never exceeds the extent. -/
theorem rollOff_le (e : Nat) (x : Int) : rollOff e x ≤ e := by
  unfold rollOff
  simp only [show ∀ a b : Int, a.emod b = a % b from fun _ _ => rfl]
  by_cases he : e = 0
  · subst he
    simp [Int.emod_one]
  · rw [if_neg he]
    have h1 := Int.emod_nonneg x (show ((e : Int)) ≠ 0 by exact_mod_cast he)
    have h2 := Int.emod_lt_of_pos x
      (show (0 : Int) < e by exact_mod_cast Nat.pos_of_ne_zero he)
    omega

/-- Normalising the shift first does not change it: `off %= e` is
idempotent (including extent `0`, where numpy reduces mod `1`). -/
theorem rollOff_emod (e : Nat) (x : Int) :
    rollOff e (x.emod e) = rollOff e x := by
  unfold rollOff
  simp only [show ∀ a b : Int, a.emod b = a % b from fun _ _ => rfl]
  by_cases he : e = 0
  · subst he
    simp
  · rw [if_neg he]
    rw [Int.emod_emod_of_dvd x (dvd_refl (e : Int))]

/-- Shift `0` is the identity cyclic shift. -/
theorem rollList_zero {α : Type} (l : List α) :
    rollList l.length 0 l = l := by
  unfold rollList
  rw [Nat.sub_zero, List.drop_length, List.take_length]
  rfl

/-- Element `i` of a cyclic shift by `off`: the original element at
`(i + (len - off)) mod len`. -/
theorem rollList_getD {α : Type} (l : List α) (off i : Nat) (d : α)
    (hoff : off ≤ l.length) (hi : i < l.length) :
    (rollList l.length off l).getD i d =
      l.getD ((i + (l.length - off)) % l.length) d := by
  unfold rollList
  by_cases hc : i < off
  · have hmod : (i + (l.length - off)) % l.length = l.length - off + i := by
      rw [Nat.mod_eq_of_lt (by omega)]
      omega
    rw [List.getD_append _ _ _ _ (by rw [List.length_drop]; omega),
      getD_drop l _ _ _ (by omega), hmod]
  · have hmod : (i + (l.length - off)) % l.length = i - off := by
      rw [Nat.mod_eq_sub_mod (by omega),
        show i + (l.length - off) - l.length = i - off from by omega,
        Nat.mod_eq_of_lt (by omega)]
    rw [List.getD_append_right _ _ _ _ (by rw [List.length_drop]; omega)]
    have hidx : i - (l.drop (l.length - off)).length = i - off := by
      rw [List.length_drop]
      omega
    rw [hidx, getD_take l _ _ _ (by omega) (by omega), hmod]

theorem rollList_WF {h w : Nat} {d : List (List Cell)} (hd : dataWF h w d)
    (off : Nat) (hoff : off ≤ h) : dataWF h w (rollList h off d) := by
  constructor
  · unfold rollList
    rw [List.length_append, List.length_drop, List.length_take, hd.1]
    omega
  · intro r hr
    unfold rollList at hr
    rcases List.mem_append.mp hr with hx | hx
    · exact hd.2 r (List.mem_of_mem_drop hx)
    · exact hd.2 r (List.mem_of_mem_take hx)

/-- `Str2D.roll` along axis 0 on a validated grid: same shape and
kwargs, rows cyclically shifted by the normalised offset. -/
theorem roll0_spec (g : Grid) (hg : g.Valid) (x : Int) :
    ∃ R, g.roll x 0 = some R ∧ R.Valid ∧ R.h = g.h ∧ R.w = g.w ∧
      R.halign = g.halign ∧ R.valign = g.valign ∧ R.fill = g.fill ∧
      ∀ i, i < g.h → ∀ j,
        R.cell i j = g.cell ((i + (g.h - rollOff g.h x)) % g.h) j := by
  obtain ⟨hWF, hha, hva, hf⟩ := hg
  have hoff := rollOff_le g.h x
  have hd : dataWF g.h g.w (rollList g.h (rollOff g.h x) g.data) :=
    rollList_WF ⟨hWF.1, hWF.2⟩ _ hoff
  refine ⟨⟨g.h, g.w, rollList g.h (rollOff g.h x) g.data,
      g.halign, g.valign, g.fill⟩, ?_, ⟨hd, hha, hva, hf⟩, rfl, rfl, rfl,
      rfl, rfl, ?_⟩
  · unfold Grid.roll
    simp only [if_neg (by omega : ¬ (0 : Nat) = 1)]
    exact mkStruct_valid hha hva hf _ _ _
  · intro i hi j
    rw [cell_eq_cellAt, cell_eq_cellAt]
    show cellAt (rollList g.h (rollOff g.h x) g.data) i j = _
    unfold cellAt
    have hrow : (rollList g.h (rollOff g.h x) g.data).getD i [] =
        g.data.getD ((i + (g.h - rollOff g.h x)) % g.h) [] := by
      have := rollList_getD g.data (rollOff g.h x) i []
        (by rw [hWF.1]; exact hoff) (by rw [hWF.1]; exact hi)
      rwa [hWF.1] at this
    rw [hrow]

/-- `Str2D.roll` along axis 1 on a validated grid: same shape and
kwargs, each row's columns cyclically shifted by the normalised
offset. -/
theorem roll1_spec (g : Grid) (hg : g.Valid) (x : Int) :
    ∃ R, g.roll x 1 = some R ∧ R.Valid ∧ R.h = g.h ∧ R.w = g.w ∧
      R.halign = g.halign ∧ R.valign = g.valign ∧ R.fill = g.fill ∧
      ∀ i, i < g.h → ∀ j, j < g.w →
        R.cell i j = g.cell i ((j + (g.w - rollOff g.w x)) % g.w) := by
  obtain ⟨hWF, hha, hva, hf⟩ := hg
  have hoff := rollOff_le g.w x
  have hd : dataWF g.h g.w (g.data.map (rollList g.w (rollOff g.w x))) := by
    constructor
    · rw [List.length_map, hWF.1]
    · intro r hr
      obtain ⟨r0, hr0, rfl⟩ := List.mem_map.mp hr
      have hwr : r0.length = g.w := hWF.2 r0 hr0
      unfold rollList
      rw [List.length_append, List.length_drop, List.length_take, hwr]
      omega
  refine ⟨⟨g.h, g.w, g.data.map (rollList g.w (rollOff g.w x)),
      g.halign, g.valign, g.fill⟩, ?_, ⟨hd, hha, hva, hf⟩, rfl, rfl, rfl,
      rfl, rfl, ?_⟩
  · unfold Grid.roll
    simp only [if_pos rfl]
    exact mkStruct_valid hha hva hf _ _ _
  · intro i hi j hj
    have hi' : i < g.data.length := by rw [hWF.1]; exact hi
    rw [cell_eq_cellAt, cell_eq_cellAt]
    show cellAt (g.data.map (rollList g.w (rollOff g.w x))) i j = _
    unfold cellAt
    have hrow : (g.data.map (rollList g.w (rollOff g.w x))).getD i [] =
        rollList g.w (rollOff g.w x) (g.data.get ⟨i, hi'⟩) := by
      rw [List.getD_eq_getElem _ _ (by simpa using hi'), List.getElem_map]
      rfl
    have hwr : (g.data.get ⟨i, hi'⟩).length = g.w :=
      hWF.2 _ (List.get_mem g.data i hi')
    have hcell := rollList_getD (g.data.get ⟨i, hi'⟩) (rollOff g.w x) j
      defCell (by rw [hwr]; exact hoff) (by rw [hwr]; exact hj)
    rw [hwr] at hcell
    rw [hrow, hcell,
      show g.data.getD i [] = g.data.get ⟨i, hi'⟩ from
        List.getD_eq_getElem _ _ hi']

/-- Rolling first reducing the shift mod the extent gives the same
result (the extent of axis 1 is the width, otherwise the height). -/
theorem roll_emod (g : Grid) (x : Int) (axis : Nat) :
    g.roll (x.emod (if axis = 1 then (g.w : Int) else (g.h : Int))) axis =
      g.roll x axis := by
  unfold Grid.roll
  by_cases hax : axis = 1
  · rw [if_pos hax, if_pos hax, if_pos hax, rollOff_emod]
  · rw [if_neg hax, if_neg hax, if_neg hax, rollOff_emod]

/-- Rolling by any integer multiple of the extent returns the grid
unchanged. -/
theorem roll_multiple (g : Grid) (hg : g.Valid) (k : Int) (axis : Nat) :
    g.roll (k * (if axis = 1 then (g.w : Int) else (g.h : Int))) axis =
      some g := by
  obtain ⟨hWF, hha, hva, hf⟩ := hg
  have hzero : ∀ e : Nat, rollOff e (k * (e : Int)) = 0 := by
    intro e
    unfold rollOff
    simp only [show ∀ a b : Int, a.emod b = a % b from fun _ _ => rfl]
    by_cases he : e = 0
    · subst he
      simp
    · rw [if_neg he, Int.mul_emod_left]
      rfl
  unfold Grid.roll
  by_cases hax : axis = 1
  · rw [if_pos hax, if_pos hax, hzero]
    have hmap : g.data.map (rollList g.w 0) = g.data := by
      conv_rhs => rw [← List.map_id g.data]
      refine List.map_congr_left fun r hr => ?_
      rw [← hWF.2 r hr, rollList_zero, id]
    rw [hmap, mkStruct_valid hha hva hf _ _ _]
  · rw [if_neg hax, if_neg hax, hzero]
    have hroll : rollList g.h 0 g.data = g.data := by
      rw [← hWF.1, rollList_zero]
    rw [hroll, mkStruct_valid hha hva hf _ _ _]

/-- A resolved slice bound never exceeds the extent. -/
theorem resolveSliceBound_le (extent deflt : Nat) (hd : deflt ≤ extent)
    (ob : Option Int) : resolveSliceBound extent deflt ob ≤ extent := by
  cases ob with
  | none => simpa [resolveSliceBound] using hd
  | some k =>
      simp only [resolveSliceBound]
      split_ifs <;> omega

/-- The selection `l[a:b]` really has `sliceCount` elements when `l` has
the stated extent (truncating slice semantics, any bounds). -/
theorem pySliceSh_length {α : Type} {extent : Nat} {l : List α}
    (hl : l.length = extent) (a b : Option Int) :
    (pySliceSh extent l a b).length = sliceCount extent a b := by
  unfold pySliceSh sliceCount
  have he := resolveSliceBound_le extent extent (le_refl _) b
  rw [List.length_take, List.length_drop, hl]
  omega

/-- Every element of the selection is an element of the original
list. -/
theorem pySliceSh_mem {α : Type} {extent : Nat} {l : List α} {x : α}
    (hx : x ∈ pySliceSh extent l a b) : x ∈ l := by
  unfold pySliceSh at hx
  exact List.mem_of_mem_drop (List.mem_of_mem_take hx)

/-- A resolved scalar index is in range. -/
theorem resolveScalar_lt {extent : Nat} {k : Int} {m : Nat}
    (h : resolveScalar extent k = some m) : m < extent := by
  unfold resolveScalar at h
  split_ifs at h with h1 h2 h3
  · rw [Option.some.injEq] at h
    omega
  · rw [Option.some.injEq] at h
    omega

/-- `g[a:b, c:d]`: basic slicing always yields a Grid whose shape is the
two slice counts, whatever the bounds (truncating semantics, no
error). -/
theorem getitem_slice_slice (g : Grid) (hg : g.Valid) (a b c d : Option Int) :
    ∃ R, g.getitem2 (.slc a b) (.slc c d) = some R ∧ R.Valid ∧
      R.h = sliceCount g.h a b ∧ R.w = sliceCount g.w c d ∧
      R.halign = g.halign ∧ R.valign = g.valign ∧ R.fill = g.fill := by
  obtain ⟨hWF, hha, hva, hf⟩ := hg
  have hdd : dataWF (sliceCount g.h a b) (sliceCount g.w c d)
      ((pySliceSh g.h g.data a b).map fun r => pySliceSh g.w r c d) := by
    constructor
    · rw [List.length_map, pySliceSh_length hWF.1 a b]
    · intro r hr
      obtain ⟨r0, hr0, rfl⟩ := List.mem_map.mp hr
      exact pySliceSh_length (hWF.2 r0 (pySliceSh_mem hr0)) c d
  refine ⟨⟨sliceCount g.h a b, sliceCount g.w c d,
      (pySliceSh g.h g.data a b).map fun r => pySliceSh g.w r c d,
      g.halign, g.valign, g.fill⟩, ?_, ⟨hdd, hha, hva, hf⟩, rfl, rfl, rfl,
      rfl, rfl⟩
  unfold Grid.getitem2
  exact mkStruct_valid hha hva hf _ _ _

/-- `g[i, a:b]` with an in-range scalar row: a Grid of height 1 (the
scalar is wrapped in a length-1 index list). -/
theorem getitem_scalar_slice (g : Grid) (hg : g.Valid) {i : Int} {i' : Nat}
    (hi : resolveScalar g.h i = some i') (a b : Option Int) :
    ∃ R, g.getitem2 (.scalar i) (.slc a b) = some R ∧ R.Valid ∧
      R.h = 1 ∧ R.w = sliceCount g.w a b ∧
      R.halign = g.halign ∧ R.valign = g.valign ∧ R.fill = g.fill := by
  obtain ⟨hWF, hva', hva, hf⟩ := hg
  have hi' : i' < g.h := resolveScalar_lt hi
  have hrow : (g.row i').length = g.w := by
    unfold Grid.row
    rw [List.getD_eq_getElem _ _ (by rw [hWF.1]; exact hi')]
    exact hWF.2 _ (List.get_mem g.data i' (by rw [hWF.1]; exact hi'))
  have hdd : dataWF 1 (sliceCount g.w a b) [pySliceSh g.w (g.row i') a b] := by
    constructor
    · rfl
    · intro r hr
      rw [List.mem_singleton] at hr
      rw [hr]
      exact pySliceSh_length hrow a b
  refine ⟨⟨1, sliceCount g.w a b, [pySliceSh g.w (g.row i') a b],
      g.halign, g.valign, g.fill⟩, ?_, ⟨hdd, hva', hva, hf⟩, rfl, rfl, rfl,
      rfl, rfl⟩
  show (do
      let k ← resolveScalar g.h i
      mkStruct 1 (sliceCount g.w a b) [pySliceSh g.w (g.row k) a b]
        g.halign g.valign g.fill) = _
  rw [hi]
  simp only [Option.bind_eq_bind, Option.some_bind]
  exact mkStruct_valid hva' hva hf _ _ _

/-- `g[a:b, j]` with an in-range scalar column: a Grid of width 1. -/
theorem getitem_slice_scalar (g : Grid) (hg : g.Valid) {j : Int} {j' : Nat}
    (hj : resolveScalar g.w j = some j') (a b : Option Int) :
    ∃ R, g.getitem2 (.slc a b) (.scalar j) = some R ∧ R.Valid ∧
      R.h = sliceCount g.h a b ∧ R.w = 1 ∧
      R.halign = g.halign ∧ R.valign = g.valign ∧ R.fill = g.fill := by
  obtain ⟨hWF, hha, hva, hf⟩ := hg
  have hdd : dataWF (sliceCount g.h a b) 1
      ((pySliceSh g.h g.data a b).map fun r => [r.getD j' defCell]) := by
    constructor
    · rw [List.length_map, pySliceSh_length hWF.1 a b]
    · intro r hr
      obtain ⟨r0, _, rfl⟩ := List.mem_map.mp hr
      rfl
  refine ⟨⟨sliceCount g.h a b, 1,
      (pySliceSh g.h g.data a b).map fun r => [r.getD j' defCell],
      g.halign, g.valign, g.fill⟩, ?_, ?_, rfl, rfl, rfl, rfl, rfl⟩
  · show (do
        let k ← resolveScalar g.w j
        mkStruct (sliceCount g.h a b) 1
          ((pySliceSh g.h g.data a b).map fun r : List Cell =>
            [r.getD k defCell])
          g.halign g.valign g.fill) = _
    rw [hj]
    simp only [Option.bind_eq_bind, Option.some_bind]
    exact mkStruct_valid hha hva hf _ _ _
  · exact ⟨hdd, hha, hva, hf⟩

/-- An out-of-range scalar row index is an `IndexError`. -/
theorem getitem_scalar_oob (g : Grid) {i : Int}
    (hi : resolveScalar g.h i = none) (a b : Option Int) :
    g.getitem2 (.scalar i) (.slc a b) = none := by
  show (do
      let k ← resolveScalar g.h i
      mkStruct 1 (sliceCount g.w a b) [pySliceSh g.w (g.row k) a b]
        g.halign g.valign g.fill) = none
  rw [hi]
  rfl

/-- A halign token that does not lower-case into the valid set is
rejected. -/
theorem validate_halign_none {s : String} (h : pyLower s ∉ validHaligns) :
    validate_halign s = none := by
  unfold validate_halign
  rw [if_neg h]

theorem validate_valign_none {s : String} (h : pyLower s ∉ validValigns) :
    validate_valign s = none := by
  unfold validate_valign
  rw [if_neg h]

/-- `Str2D(...)` with an invalid `halign` fails for every input: the
`ValueError` is raised before the data is parsed. -/
theorem construct_bad_halign (s : String) (minw minh : Option Nat)
    {ha : String} (hha : pyLower ha ∉ validHaligns) (va : String)
    (fill : FillSpec) : construct s minw minh ha va fill = none := by
  unfold construct
  rw [validate_halign_none hha]
  cases validate_fill fill <;> rfl

/-- `Str2D(...)` with an invalid `valign` fails for every input. -/
theorem construct_bad_valign (s : String) (minw minh : Option Nat)
    (ha : String) {va : String} (hva : pyLower va ∉ validValigns)
    (fill : FillSpec) : construct s minw minh ha va fill = none := by
  unfold construct
  rw [validate_valign_none hva]
  cases validate_fill fill <;> cases validate_halign ha <;> rfl

/-- `Str2D(...)` with an invalid fill specification fails for every
input. -/
theorem construct_bad_fill (s : String) (minw minh : Option Nat)
    (ha va : String) {fill : FillSpec} (hf : validate_fill fill = none) :
    construct s minw minh ha va fill = none := by
  unfold construct
  rw [hf]
  rfl

/-- The constructor's `middle`/`center` deficit split: `before = d / 2`
on each axis (the start offset of the input block and the top/left
share in `expand`), and the remainder `d - d / 2` — never less than
`before` — goes after. -/
theorem middle_center_split (h dh w rw : Nat) (hdh : dh ≤ h) (hrw : rw ≤ w) :
    startV "middle" h dh = (h - dh) / 2 ∧
    h - (startV "middle" h dh + dh) = (h - dh) - (h - dh) / 2 ∧
    startH "center" w rw = (w - rw) / 2 ∧
    w - (startH "center" w rw + rw) = (w - rw) - (w - rw) / 2 ∧
    expandTop "middle" (h - dh) = (h - dh) / 2 ∧
    expandLeft "center" (w - rw) = (w - rw) / 2 ∧
    (h - dh) / 2 ≤ (h - dh) - (h - dh) / 2 ∧
    (w - rw) / 2 ≤ (w - rw) - (w - rw) / 2 := by
  have hsv : startV "middle" h dh = (h - dh) / 2 := rfl
  have hsh : startH "center" w rw = (w - rw) / 2 := rfl
  refine ⟨rfl, ?_, rfl, ?_, rfl, rfl, ?_, ?_⟩
  · rw [hsv]
    omega
  · rw [hsh]
    omega
  · omega
  · omega

/-- The parsed-string data block is well-formed at the parse shape. -/
theorem stringData_WF (pre : List (List Char)) (minw minh : Nat)
    (ha va : String) (f : Cell) :
    dataWF (stringHeight pre minh) (stringWidth pre minw)
      (stringData pre minw minh ha va f) := by
  simp only [stringData]
  exact genData_WF _ _ _

theorem padWF_dims {hIn wIn hD wD : Nat} {d : List (List Cell)}
    (hd : dataWF hIn wIn d) (f : Cell) (top left : Nat) (h1 : hIn ≤ hD)
    (h2 : wIn ≤ wD) (h3 : top ≤ hD - hIn) (h4 : left ≤ wD - wIn) :
    dataWF hD wD
      (structPad .constant top (hD - hIn - top) left (wD - wIn - left) f
        wIn d) := by
  have hpc := padConstant_WF hd top (hD - hIn - top) left (wD - wIn - left) f
  have e1 : top + hIn + (hD - hIn - top) = hD := by omega
  have e2 : left + wIn + (wD - wIn - left) = wD := by omega
  show dataWF hD wD (padConstant top (hD - hIn - top) left
    (wD - wIn - left) f wIn d)
  rw [e1, e2] at hpc
  exact hpc

/-- Whatever the arguments, a successfully constructed grid is valid:
rectangular data of the declared shape, valid alignment tokens, a 0/1
alpha fill. -/
theorem construct_valid {s : String} {minw minh : Option Nat}
    {ha va : String} {fill : FillSpec} {G : Grid}
    (h : construct s minw minh ha va fill = some G) : G.Valid := by
  unfold construct at h
  simp only [Option.bind_eq_bind, Option.bind_eq_some] at h
  obtain ⟨f, hf, ha', hha', va', hva', hG⟩ := h
  rw [Option.some.injEq] at hG
  subst hG
  have hfa := validate_fill_some hf
  have hham := validate_halign_some hha'
  have hvam := validate_valign_some hva'
  refine ⟨?_, hham, hvam, hfa⟩
  show dataWF (max (stringHeight (pySplitlines s) (minh.getD 0)) (minh.getD 0))
    (max (stringWidth (pySplitlines s) (minw.getD 0)) (minw.getD 0)) _
  exact padWF_dims (stringData_WF (pySplitlines s) (minw.getD 0)
      (minh.getD 0) ha' va' f) f _ _ (by omega) (by omega)
    (by split <;> omega) (by split <;> omega)

end Modern

namespace Claims

open Modern Legacy

/-- Claim C1: for every valid grid, flipping horizontally twice, flipping
vertically twice, transposing twice, and rotating clockwise four times
each reproduce the original grid, alignment fields included. -/
theorem C1_round_trips (g : Grid) (hg : g.Valid) :
    (g.hflip >>= Grid.hflip) = some g ∧
    (g.vflip >>= Grid.vflip) = some g ∧
    (g.t >>= Grid.t) = some g ∧
    (g.rot >>= Grid.rot >>= Grid.rot >>= Grid.rot) = some g :=
  ⟨hflip_hflip g hg, vflip_vflip g hg, t_t g hg, rot_rot_rot_rot g hg⟩

/-- Witness for C1 at a concrete 2×2 grid. -/
theorem C1_round_trips_witness :
    Grid.Valid sampleA ∧
    ((sampleA.hflip >>= Grid.hflip) = some sampleA ∧
     (sampleA.vflip >>= Grid.vflip) = some sampleA ∧
     (sampleA.t >>= Grid.t) = some sampleA ∧
     (sampleA.rot >>= Grid.rot >>= Grid.rot >>= Grid.rot) = some sampleA) :=
  ⟨by decide, C1_round_trips sampleA (by decide)⟩

/-- Claim C2 (amended): layering a same-shaped overlay of positive width
resolves cell-wise — the overlay's character where it differs from the
mask character, the base's character where it equals it — and a shape
mismatch fails before any cell is read; on zero-width grids the
reconstruction itself fails even when the shapes agree. -/
theorem C2_layer_resolution (A M : LGrid) (hA : A.WF) (hM : M.WF) (c : Char) :
    (lshape M ≠ lshape A → llayer A M c = none) ∧
    (lshape M = lshape A → 1 ≤ lwidth A →
      ∃ R, llayer A M c = some R ∧ lheight R = lheight A ∧
        lwidth R = lwidth A ∧
        ∀ i, i < lheight A → ∀ j, j < lwidth A →
          lcell R i j = if lcell M i j = c then lcell A i j else lcell M i j) := by
  refine ⟨fun hsh => llayer_mismatch A M c hsh, fun hsh hw => ?_⟩
  have hhM : M.s.length = A.s.length := congrArg Prod.fst hsh
  have hwM : lwidth M = lwidth A := congrArg Prod.snd hsh
  have hrect : ∀ r ∈ List.zipWith (List.zipWith (maskChar c)) A.s M.s,
      r.length = lwidth A :=
    zipWith_rect _ hA.2.1 (fun r hr => by rw [hM.2.1 r hr, hwM])
  have hlen : (List.zipWith (List.zipWith (maskChar c)) A.s M.s).length =
      A.s.length := by
    rw [List.length_zipWith, hhM, min_self]
  have hne : List.zipWith (List.zipWith (maskChar c)) A.s M.s ≠ [] := by
    intro hcon
    apply hA.1
    rw [← List.length_eq_zero, ← hlen, hcon]
    rfl
  refine ⟨⟨List.zipWith (List.zipWith (maskChar c)) A.s M.s,
      A.halign, A.valign, A.hfill, A.vfill⟩,
    llayer_spec A M c hA hM hsh hw, hlen, lwidth_mk hne hrect _ _ _ _, ?_⟩
  intro i hi j hj
  exact llayer_cell A M c hA hM hsh hi hj

/-- Counterexample for C2 as stated: a same-shaped pair of zero-width
grids resolves to an error, not to a grid of the overlay's and base's
characters. -/
theorem C2_layer_counterexample :
    LGrid.WF ⟨[[]], "left", "top", " ", " "⟩ ∧
    lshape ⟨[[]], "left", "top", " ", " "⟩ =
      lshape ⟨[[]], "left", "top", " ", " "⟩ ∧
    llayer ⟨[[]], "left", "top", " ", " "⟩ ⟨[[]], "left", "top", " ", " "⟩
      '.' = none :=
  ⟨by decide, rfl, by decide⟩

/-- Witness for C2 at concrete 2×2 grids. -/
theorem C2_layer_resolution_witness :
    ∃ R, llayer ⟨[['a', 'b'], ['c', 'd']], "left", "top", " ", " "⟩
        ⟨[['.', 'x'], ['.', '.']], "left", "top", " ", " "⟩ '.' = some R ∧
      lheight R = 2 := by
  obtain ⟨R, h1, h2, -, -⟩ :=
    (C2_layer_resolution ⟨[['a', 'b'], ['c', 'd']], "left", "top", " ", " "⟩
      ⟨[['.', 'x'], ['.', '.']], "left", "top", " ", " "⟩ (by decide)
      (by decide) '.').2 (by decide) (by decide)
  refine ⟨R, h1, ?_⟩
  rw [h2]
  decide

/-- Claim C3: `A * n` (positive `n`) repeats `A` horizontally — height
unchanged, width `n` times — while `n * A` repeats it vertically, and
both results have `n` times `A`'s area. -/
theorem C3_repetition (A : Grid) (hA : A.Valid) (n : Nat) (hn : 0 < n) :
    ∃ RH RV, A.mul n = some RH ∧ A.rmul n = some RV ∧
      RH.h = A.h ∧ RH.w = n * A.w ∧ RV.h = n * A.h ∧ RV.w = A.w ∧
      RH.h * RH.w = n * (A.h * A.w) ∧ RV.h * RV.w = n * (A.h * A.w) ∧
      (∀ i, i < A.h → ∀ j, j < n * A.w → RH.cell i j = A.cell i (j % A.w)) ∧
      (∀ i, i < n * A.h → ∀ j, j < A.w → RV.cell i j = A.cell (i % A.h) j) := by
  obtain ⟨RH, m1, _, m3, m4, _, _, _, m8, m9⟩ := mul_spec A hA n hn
  obtain ⟨RV, r1, _, r3, r4, _, _, _, r8, r9⟩ := rmul_spec A hA n hn
  exact ⟨RH, RV, m1, r1, m3, m4, r3, r4, m8, r8, m9, r9⟩

/-- Witness for C3 at a concrete 2×2 grid and count 2. -/
theorem C3_repetition_witness :
    ∃ RH RV, sampleA.mul 2 = some RH ∧ sampleA.rmul 2 = some RV ∧
      RH.h * RH.w = 8 ∧ RV.h * RV.w = 8 := by
  obtain ⟨RH, RV, h1, h2, -, -, -, -, h7, h8, -, -⟩ :=
    C3_repetition sampleA (by decide) 2 (by decide)
  refine ⟨RH, RV, h1, h2, ?_, ?_⟩
  · rw [h7]
    decide
  · rw [h8]
    decide

end Claims

namespace Modern

theorem splitOnNl_ne_nil (l : List Char) : splitOnNl l ≠ [] := by
  cases l with
  | nil => exact fun h => List.noConfusion h
  | cons c cs =>
      unfold splitOnNl
      split_ifs <;> exact fun h => List.noConfusion h

theorem splitOnNl_len2 {l : List Char} (h : '\n' ∈ l) :
    2 ≤ (splitOnNl l).length := by
  induction l with
  | nil => cases h
  | cons c cs ih =>
      unfold splitOnNl
      by_cases hc : c = '\n'
      · rw [if_pos hc]
        have := splitOnNl_ne_nil cs
        have := List.length_pos.mpr this
        simp only [List.length_cons]
        omega
      · rw [if_neg hc]
        have hmem : '\n' ∈ cs := by
          rcases List.mem_cons.mp h with rfl | hx
          · exact absurd rfl hc
          · exact hx
        have h2 := ih hmem
        simp only [List.length_cons]
        have h3 : (splitOnNl cs).tail.length = (splitOnNl cs).length - 1 :=
          List.length_tail _
        omega

/-- A non-empty string splits into at least one line. -/
theorem pySplitlines_ne_nil {s : String} (hs : s.toList ≠ []) :
    1 ≤ (pySplitlines s).length := by
  have hne2 : normNl s.toList ≠ [] := normNl_ne_nil hs
  simp only [pySplitlines]
  rw [if_neg hne2]
  split_ifs with hl
  · rw [List.getLast?_eq_getLast _ hne2] at hl
    have hl2 : isLineBreak ((normNl s.toList).getLast hne2) = true := hl
    have := splitBreaks_len2 ⟨_, List.getLast_mem hne2, hl2⟩
    rw [List.length_dropLast]
    omega
  · have := List.length_pos.mpr (splitBreaks_ne_nil (normNl s.toList))
    omega

/-- An out-of-range scalar column index is an `IndexError`. -/
theorem getitem_scalar_oob_col (g : Grid) {j : Int}
    (hj : resolveScalar g.w j = none) (a b : Option Int) :
    g.getitem2 (.slc a b) (.scalar j) = none := by
  show (do
      let k ← resolveScalar g.w j
      mkStruct (sliceCount g.h a b) 1
        ((pySliceSh g.h g.data a b).map fun r : List Cell =>
          [r.getD k defCell])
        g.halign g.valign g.fill) = none
  rw [hj]
  rfl

end Modern

namespace Claims

open Modern Legacy

/-- Claim C5: rectangularity — every grid produced by construction or by
any grid-producing operation of either implementation (joins,
repetition, transformations, roll, shuffle, row-wise rewriting, masking,
slicing) has rows all of the grid's width. -/
theorem C5_rectangularity :
    (∀ (s : String) (minw minh : Option Nat) (ha va : String)
        (fill : FillSpec) (G : Grid),
      construct s minw minh ha va fill = some G → G.WF) ∧
    (∀ A B R : Grid, A.Valid → B.Valid → A.add B = some R → R.WF) ∧
    (∀ (A : Grid) (s : String) (R : Grid), A.Valid →
      A.addStr s = some R → R.WF) ∧
    (∀ (A : Grid) (n : Nat) (R : Grid), A.Valid → A.mul n = some R →
      R.WF) ∧
    (∀ (A : Grid) (n : Nat) (R : Grid), A.Valid → A.rmul n = some R →
      R.WF) ∧
    (∀ (g : Grid) (x : Int) (ax : Nat) (R : Grid), g.Valid →
      g.roll x ax = some R → R.WF) ∧
    (∀ g R : Grid, g.t = some R → R.WF) ∧
    (∀ g R : Grid, g.Valid → g.hflip = some R → R.WF) ∧
    (∀ g R : Grid, g.Valid → g.vflip = some R → R.WF) ∧
    (∀ g R : Grid, g.rot = some R → R.WF) ∧
    (∀ (g : Grid) (x y : Nat) (mode : PadMode) (R : Grid), g.Valid →
      (mode = .edge → 1 ≤ g.h) → g.expand x y mode = some R → R.WF) ∧
    (∀ (g : Grid) (rk ck : Key) (R : Grid), g.Valid →
      g.getitem2 rk ck = some R → R.WF) ∧
    (∀ (inp : List (List Char)) (ha va hf vf : String)
        (mw mh : Option Nat) (G : LGrid),
      lmk inp ha va hf vf mw mh = some G → G.WF) ∧
    (∀ (A M : LGrid) (c : Char) (R : LGrid), llayer A M c = some R →
      R.WF) ∧
    (∀ (A M : LGrid) (c rep : Char) (R : LGrid),
      lmask A M c rep = some R → R.WF) ∧
    (∀ a b R : LGrid, ladd a b = some R → R.WF) ∧
    (∀ a b R : LGrid, ldiv a b = some R → R.WF) ∧
    (∀ (A : LGrid) (v : PyVal) (R : LGrid), A.WF → lmul A v = .ok R →
      R.WF) ∧
    (∀ (A : LGrid) (v : PyVal) (R : LGrid), A.WF →
      lfloordiv A v = .ok R → R.WF) ∧
    (∀ g R : LGrid, lH g = some R → R.WF) ∧
    (∀ g R : LGrid, lV g = some R → R.WF) ∧
    (∀ g R : LGrid, lT g = some R → R.WF) ∧
    (∀ (g : LGrid) (f : List Char → List Char) (R : LGrid),
      lmapRows g f = some R → R.WF) ∧
    (∀ (g : LGrid) (sh : List Char) (R : LGrid),
      lshuffleWith g sh = some R → R.WF) ∧
    (∀ (g : LGrid) (a b : Option Int) (R : LGrid),
      lgetitemSlice g a b = some R → R.WF) := by
  refine ⟨?_, ?_, ?_, ?_, ?_, ?_, ?_, ?_, ?_, ?_, ?_, ?_, ?_, ?_, ?_, ?_,
    ?_, ?_, ?_, ?_, ?_, ?_, ?_, ?_, ?_⟩
  · intro s minw minh ha va fill G h
    exact (construct_valid h).1
  · intro A B R hA hB h
    obtain ⟨R', h1, hval, -, -, -, -, -, -, -⟩ := add_spec A B hA hB
    rw [h1, Option.some.injEq] at h
    subst h
    exact hval.1
  · intro A s R hA h
    by_cases hs : s.toList = []
    · have hs' : s = "" := by
        cases s with
        | mk l =>
            simp only [String.toList] at hs
            rw [hs]
      subst hs'
      rw [addStr_empty A hA, Option.some.injEq] at h
      subst h
      exact hA.1
    · by_cases hnl : ∃ c ∈ s.toList, isLineBreak c = true
      · obtain ⟨hAWF, hAha, hAva, hAf⟩ := hA
        simp only [Grid.addStr, Option.bind_eq_bind, Option.bind_eq_some] at h
        obtain ⟨B, hB, L, hL, Rx, hRx, hmk⟩ := h
        have hBval : B.Valid := construct_valid hB
        obtain ⟨hBWF, hBha, hBva, hBf⟩ := hBval
        rw [expandY_eq A ⟨hAWF, hAha, hAva, hAf⟩ _, Option.some.injEq] at hL
        subst hL
        rw [if_neg (show ¬ s = "" from fun hcon => hs (by rw [hcon]; rfl))]
          at hRx
        have hB1 : 1 ≤ B.h := by
          have hBh : B.h = stringHeight (pySplitlines s) 0 := by
            unfold liftStr at hB
            rw [@construct_eq s none none "left" "top" FillSpec.nofill
                ⟨' ', 0⟩ (by decide) (by decide) rfl,
              Option.some.injEq] at hB
            subst hB
            rfl
          rw [hBh]
          unfold stringHeight
          have := pySplitlines_ne_nil hs
          omega
        have hRxWF : dataWF (max A.h B.h) Rx.w Rx.data := by
          unfold Grid.expand Grid.pad at hRx
          simp only [Option.bind_eq_bind, Option.bind_eq_some] at hRx
          obtain ⟨f, -, hmk2⟩ := hRx
          obtain ⟨e1, e2, e3, -, -, -⟩ := mkStruct_some hmk2
          rw [e2, e3]
          simp only [expandLeft_zero]
          have htle := expandTop_le B.valign (max A.h B.h - B.h)
          have hwf2 := padEdge_WF hBWF hB1
            (expandTop B.valign (max A.h B.h - B.h))
            (max A.h B.h - B.h - expandTop B.valign (max A.h B.h - B.h))
            0 (0 - 0)
          have e4 : expandTop B.valign (max A.h B.h - B.h) + B.h +
              (max A.h B.h - B.h -
                expandTop B.valign (max A.h B.h - B.h)) = max A.h B.h := by
            omega
          rw [e4] at hwf2
          exact hwf2
        have hdL : dataWF (max A.h B.h) A.w
            (padConstant (expandTop A.valign (max A.h B.h - A.h))
              (max A.h B.h - A.h -
                expandTop A.valign (max A.h B.h - A.h)) 0 0
              A.fill A.w A.data) := by
          have hp := padConstant_WF hAWF
            (expandTop A.valign (max A.h B.h - A.h))
            (max A.h B.h - A.h - expandTop A.valign (max A.h B.h - A.h))
            0 0 A.fill
          have := expandTop_le A.valign (max A.h B.h - A.h)
          have e1 : expandTop A.valign (max A.h B.h - A.h) + A.h +
              (max A.h B.h - A.h -
                expandTop A.valign (max A.h B.h - A.h)) = max A.h B.h := by
            omega
          have e3 : (0 : Nat) + A.w + 0 = A.w := by omega
          rwa [e1, e3] at hp
        refine (mkStruct_WF hmk ?_).1
        exact hstack_WF hdL hRxWF
      · have hnl2 : ∀ c ∈ s.toList, isLineBreak c = false := by
          intro c hc
          cases hbv : isLineBreak c
          · rfl
          · exact absurd ⟨c, hc, hbv⟩ hnl
        obtain ⟨R', h1, hval, -, -, -, -, -, -⟩ :=
          addStr_spec A hA s hs hnl2
        rw [h1, Option.some.injEq] at h
        subst h
        exact hval.1
  · intro A n R hA h
    rcases Nat.eq_zero_or_pos n with rfl | hn
    · unfold Grid.mul at h
      rw [if_pos rfl] at h
      exact Option.noConfusion h
    · obtain ⟨R', h1, hval, -, -, -, -, -, -⟩ := mul_spec A hA n hn
      rw [h1, Option.some.injEq] at h
      subst h
      exact hval.1
  · intro A n R hA h
    rcases Nat.eq_zero_or_pos n with rfl | hn
    · unfold Grid.rmul at h
      rw [if_pos rfl] at h
      exact Option.noConfusion h
    · obtain ⟨R', h1, hval, -, -, -, -, -, -⟩ := rmul_spec A hA n hn
      rw [h1, Option.some.injEq] at h
      subst h
      exact hval.1
  · intro g x ax R hg h
    obtain ⟨hWF, -, -, -⟩ := hg
    unfold Grid.roll at h
    by_cases hax : ax = 1
    · rw [if_pos hax] at h
      refine (mkStruct_WF h ?_).1
      constructor
      · rw [List.length_map]
        exact hWF.1
      · intro r hr
        obtain ⟨r0, hr0, rfl⟩ := List.mem_map.mp hr
        have hl := hWF.2 r0 hr0
        unfold rollList
        rw [List.length_append, List.length_drop, List.length_take, hl]
        have := rollOff_le g.w x
        omega
    · rw [if_neg hax] at h
      exact (mkStruct_WF h (rollList_WF hWF _ (rollOff_le g.h x))).1
  · intro g R h
    simp only [Grid.t, Option.bind_eq_bind, Option.bind_eq_some] at h
    obtain ⟨ha', -, va', -, hmk⟩ := h
    exact (mkStruct_WF hmk (genData_WF _ _ _)).1
  · intro g R hg h
    obtain ⟨hWF, -, -, -⟩ := hg
    simp only [Grid.hflip, Option.bind_eq_bind, Option.bind_eq_some] at h
    obtain ⟨ha', -, hmk⟩ := h
    refine (mkStruct_WF hmk ?_).1
    constructor
    · rw [List.length_map]
      exact hWF.1
    · intro r hr
      obtain ⟨r0, hr0, rfl⟩ := List.mem_map.mp hr
      rw [List.length_reverse]
      exact hWF.2 r0 hr0
  · intro g R hg h
    obtain ⟨hWF, -, -, -⟩ := hg
    simp only [Grid.vflip, Option.bind_eq_bind, Option.bind_eq_some] at h
    obtain ⟨va', -, hmk⟩ := h
    refine (mkStruct_WF hmk ?_).1
    constructor
    · rw [List.length_reverse]
      exact hWF.1
    · intro r hr
      exact hWF.2 r (List.mem_reverse.mp hr)
  · intro g R h
    simp only [Grid.rot, Grid.t, Grid.hflip, Option.bind_eq_bind,
      Option.bind_eq_some] at h
    obtain ⟨G1, ⟨ha1, -, va1, -, hmk1⟩, ha2, -, hmk2⟩ := h
    have hG1 : G1.Valid := mkStruct_WF hmk1 (genData_WF _ _ _)
    obtain ⟨hWF1, -, -, -⟩ := hG1
    refine (mkStruct_WF hmk2 ?_).1
    constructor
    · rw [List.length_map]
      exact hWF1.1
    · intro r hr
      obtain ⟨r0, hr0, rfl⟩ := List.mem_map.mp hr
      rw [List.length_reverse]
      exact hWF1.2 r0 hr0
  · intro g x y mode R hg hmode h
    obtain ⟨hWF, -, -, -⟩ := hg
    unfold Grid.expand Grid.pad at h
    simp only [Option.bind_eq_bind, Option.bind_eq_some] at h
    obtain ⟨f, -, hmk⟩ := h
    refine (mkStruct_WF hmk ?_).1
    cases mode with
    | constant => exact padConstant_WF hWF _ _ _ _ _
    | edge => exact padEdge_WF hWF (hmode rfl) _ _ _ _
  · intro g rk ck R hg h
    cases rk with
    | scalar i =>
        cases ck with
        | scalar j => exact Option.noConfusion h
        | slc a b =>
            cases hres : resolveScalar g.h i with
            | none =>
                rw [getitem_scalar_oob g hres a b] at h
                exact Option.noConfusion h
            | some i' =>
                obtain ⟨R', h1, hval, -, -, -, -, -⟩ :=
                  getitem_scalar_slice g hg hres a b
                rw [h1, Option.some.injEq] at h
                subst h
                exact hval.1
    | slc a b =>
        cases ck with
        | scalar j =>
            cases hres : resolveScalar g.w j with
            | none =>
                rw [getitem_scalar_oob_col g hres a b] at h
                exact Option.noConfusion h
            | some j' =>
                obtain ⟨R', h1, hval, -, -, -, -, -⟩ :=
                  getitem_slice_scalar g hg hres a b
                rw [h1, Option.some.injEq] at h
                subst h
                exact hval.1
        | slc c d =>
            obtain ⟨R', h1, hval, -, -, -, -, -⟩ :=
              getitem_slice_slice g hg a b c d
            rw [h1, Option.some.injEq] at h
            subst h
            exact hval.1
  · intro inp ha va hf vf mw mh G h
    exact lmk_WF h
  · intro A M c R h
    unfold llayer at h
    split_ifs at h
    simp only [Option.bind_eq_bind, Option.bind_eq_some] at h
    obtain ⟨s, -, hmk⟩ := h
    exact lmk_WF hmk
  · intro A M c rep R h
    unfold lmask at h
    split_ifs at h
    simp only [Option.bind_eq_bind, Option.bind_eq_some] at h
    obtain ⟨s, -, hmk⟩ := h
    exact lmk_WF hmk
  · intro a b R h
    simp only [ladd, Option.bind_eq_bind, Option.bind_eq_some] at h
    obtain ⟨as2, -, bs2, -, hmk⟩ := h
    exact lmk_WF hmk
  · intro a b R h
    exact lmk_WF h
  · intro A v R hA h
    cases v with
    | nonInt => exact Except.noConfusion h
    | int n =>
        simp only [lmul] at h
        split_ifs at h with hn
        obtain ⟨R', hR', hWF', -, -, -, -, -, -⟩ :=
          lmulGo_spec A hA n.toNat (by omega)
        rw [hR'] at h
        have h2 : (Except.ok R' : Except String LGrid) = Except.ok R := h
        injection h2 with he
        subst he
        exact hWF'
  · intro A v R hA h
    cases v with
    | nonInt => exact Except.noConfusion h
    | int n =>
        simp only [lfloordiv] at h
        split_ifs at h with hn
        obtain ⟨R', hR', hWF', -, -, -, -, -, -⟩ :=
          lfdivGo_spec A hA n.toNat (by omega)
        rw [hR'] at h
        have h2 : (Except.ok R' : Except String LGrid) = Except.ok R := h
        injection h2 with he
        subst he
        exact hWF'
  · intro g R h
    exact lmk_WF h
  · intro g R h
    exact lmk_WF h
  · intro g R h
    exact lmk_WF h
  · intro g f R h
    exact lmk_WF h
  · intro g sh R h
    exact lmk_WF h
  · intro g a b R h
    exact lmk_WF h

/-- Witness for C5: a concrete construction and its rectangularity. -/
theorem C5_rectangularity_witness :
    ∃ G, construct "ab" none none "left" "top" FillSpec.nofill = some G ∧
      G.WF := by
  have h := @construct_eq "ab" none none "left" "top" FillSpec.nofill
    ⟨' ', 0⟩ (by decide) (by decide) rfl
  exact ⟨_, h,
    C5_rectangularity.1 "ab" none none "left" "top" FillSpec.nofill _ h⟩

/-- Claim C6: for `center`/`middle` alignment a padding deficit `d` is
split as `before = d / 2`, `after = d - before` (odd remainder after) on
the respective axis — in the constructor's block placement and in
`expand` — and the literal scenario
`construct "a\nbc" (min_height 5, middle)` renders with one fill row
above and two below. -/
theorem C6_deficit_split (h dh w rw : Nat) (hdh : dh ≤ h) (hrw : rw ≤ w) :
    (startV "middle" h dh = (h - dh) / 2 ∧
     h - (startV "middle" h dh + dh) = (h - dh) - (h - dh) / 2 ∧
     startH "center" w rw = (w - rw) / 2 ∧
     w - (startH "center" w rw + rw) = (w - rw) - (w - rw) / 2 ∧
     expandTop "middle" (h - dh) = (h - dh) / 2 ∧
     expandLeft "center" (w - rw) = (w - rw) / 2) ∧
    (construct "a\nbc" none (some 5) "left" "middle" .nofill).map
      Grid.toStr = some "  \na \nbc\n  \n  " := by
  obtain ⟨a1, a2, a3, a4, a5, a6, -, -⟩ :=
    middle_center_split h dh w rw hdh hrw
  exact ⟨⟨a1, a2, a3, a4, a5, a6⟩, by decide⟩

/-- Witness for C6 at deficit 3 on height 5. -/
theorem C6_deficit_split_witness :
    startV "middle" 5 2 = 1 ∧
    (construct "a\nbc" none (some 5) "left" "middle" FillSpec.nofill).map
      Grid.toStr = some "  \na \nbc\n  \n  " := by
  obtain ⟨⟨a1, -, -, -, -, -⟩, a7⟩ :=
    C6_deficit_split 5 2 3 1 (by decide) (by decide)
  refine ⟨?_, a7⟩
  rw [a1]

/-- Claim C7: constructing with an `h_align` token outside
`{left, center, right}` (after lower-casing), a `v_align` outside
`{top, middle, bottom}`, or an invalid fill, fails with a validation
error whatever the data. -/
theorem C7_validation (s : String) (minw minh : Option Nat)
    (ha va : String) (fill : FillSpec) :
    (pyLower ha ∉ validHaligns → construct s minw minh ha va fill = none) ∧
    (pyLower va ∉ validValigns → construct s minw minh ha va fill = none) ∧
    (validate_fill fill = none → construct s minw minh ha va fill = none) :=
  ⟨fun h => construct_bad_halign s minw minh h va fill,
   fun h => construct_bad_valign s minw minh ha h fill,
   fun h => construct_bad_fill s minw minh ha va h⟩

/-- Witness for C7 with the invalid token `"diag"`. -/
theorem C7_validation_witness :
    pyLower "diag" ∉ validHaligns ∧
    construct "x" none none "diag" "top" FillSpec.nofill = none :=
  ⟨by decide,
    (C7_validation "x" none none "diag" "top" FillSpec.nofill).1 (by decide)⟩

/-- Claim C8 (amended): slicing with any bounds yields a Grid of the
truncated slice counts (never raising, possibly empty on an axis); a
scalar paired with a slice is wrapped to a length-1 axis when in range;
but a scalar pair is not a Grid — the pairwise advanced selection is
1-D and reconstruction fails. -/
theorem C8_indexing (g : Grid) (hg : g.Valid) (a b c d : Option Int)
    (i j : Int) :
    (∃ R, g.getitem2 (.slc a b) (.slc c d) = some R ∧
      R.h = sliceCount g.h a b ∧ R.w = sliceCount g.w c d) ∧
    (∀ i', resolveScalar g.h i = some i' →
      ∃ R, g.getitem2 (.scalar i) (.slc a b) = some R ∧ R.h = 1 ∧
        R.w = sliceCount g.w a b) ∧
    (∀ j', resolveScalar g.w j = some j' →
      ∃ R, g.getitem2 (.slc a b) (.scalar j) = some R ∧
        R.h = sliceCount g.h a b ∧ R.w = 1) ∧
    g.getitem2 (.scalar i) (.scalar j) = none := by
  refine ⟨?_, ?_, ?_, rfl⟩
  · obtain ⟨R, h1, -, h3, h4, -, -, -⟩ := getitem_slice_slice g hg a b c d
    exact ⟨R, h1, h3, h4⟩
  · intro i' hi'
    obtain ⟨R, h1, -, h3, h4, -, -, -⟩ := getitem_scalar_slice g hg hi' a b
    exact ⟨R, h1, h3, h4⟩
  · intro j' hj'
    obtain ⟨R, h1, -, h3, h4, -, -, -⟩ := getitem_slice_scalar g hg hj' a b
    exact ⟨R, h1, h3, h4⟩

/-- Counterexample for C8 as stated: two in-range scalars on a valid
grid do not yield a Grid. -/
theorem C8_indexing_counterexample :
    Grid.Valid sampleA ∧ resolveScalar sampleA.h 0 = some 0 ∧
    resolveScalar sampleA.w 0 = some 0 ∧
    sampleA.getitem2 (.scalar 0) (.scalar 0) = none :=
  ⟨by decide, by decide, by decide, rfl⟩

/-- Witness for C8: a fully out-of-range slice truncates to an empty
grid instead of raising. -/
theorem C8_indexing_witness :
    ∃ R, sampleA.getitem2 (.slc (some 5) (some 99)) (.slc none none) =
      some R ∧ R.h = 0 := by
  obtain ⟨⟨R, h1, h2, -⟩, -, -, -⟩ :=
    C8_indexing sampleA (by decide) (some 5) (some 99) none none 0 0
  refine ⟨R, h1, ?_⟩
  rw [h2]
  decide

/-- Claim C9: `roll` reduces its shift mod the axis extent (also at
extent 0), rolling by any multiple of the extent is the identity, and
on each axis the result is the cyclic shift of rows or columns. -/
theorem C9_roll (g : Grid) (hg : g.Valid) (x k : Int) (axis : Nat) :
    (g.roll (x.emod (if axis = 1 then (g.w : Int) else (g.h : Int))) axis =
      g.roll x axis) ∧
    (g.roll (k * (if axis = 1 then (g.w : Int) else (g.h : Int))) axis =
      some g) ∧
    (∃ R0, g.roll x 0 = some R0 ∧ R0.h = g.h ∧ R0.w = g.w ∧
      ∀ i, i < g.h → ∀ j,
        R0.cell i j = g.cell ((i + (g.h - rollOff g.h x)) % g.h) j) ∧
    (∃ R1, g.roll x 1 = some R1 ∧ R1.h = g.h ∧ R1.w = g.w ∧
      ∀ i, i < g.h → ∀ j, j < g.w →
        R1.cell i j = g.cell i ((j + (g.w - rollOff g.w x)) % g.w)) := by
  refine ⟨roll_emod g x axis, roll_multiple g hg k axis, ?_, ?_⟩
  · obtain ⟨R, h1, -, h3, h4, -, -, -, h8⟩ := roll0_spec g hg x
    exact ⟨R, h1, h3, h4, h8⟩
  · obtain ⟨R, h1, -, h3, h4, -, -, -, h8⟩ := roll1_spec g hg x
    exact ⟨R, h1, h3, h4, h8⟩

/-- Witness for C9 at a concrete 2×2 grid, shift 5, multiple −3. -/
theorem C9_roll_witness :
    sampleA.roll ((5 : Int).emod
      (if (0 : Nat) = 1 then (sampleA.w : Int) else (sampleA.h : Int))) 0 =
      sampleA.roll 5 0 ∧
    sampleA.roll ((-3) *
      (if (0 : Nat) = 1 then (sampleA.w : Int) else (sampleA.h : Int))) 0 =
      some sampleA := by
  obtain ⟨h1, h2, -, -⟩ := C9_roll sampleA (by decide) 5 (-3) 0
  exact ⟨h1, h2⟩

/-- Claim C10 (amended): the repetition operators require an integer —
otherwise `ValueError` — and a positive one — otherwise the fold over an
empty sequence fails; on a positive count they multiply the width
(`*`) or the height (`//`), so the result is empty exactly when the
input's other dimension is. -/
theorem C10_repetition_count (A : LGrid) (hA : A.WF) (n : Int) :
    lmul A .nonInt = .error "ValueError: n has to be an integer" ∧
    lfloordiv A .nonInt = .error "ValueError: n has to be an integer" ∧
    (n ≤ 0 → lmul A (.int n) =
      .error "TypeError: reduce of empty iterable with no initial value") ∧
    (n ≤ 0 → lfloordiv A (.int n) =
      .error "TypeError: reduce of empty iterable with no initial value") ∧
    (0 < n → ∃ R, lmul A (.int n) = .ok R ∧ lheight R = lheight A ∧
      lwidth R = n.toNat * lwidth A) ∧
    (0 < n → ∃ R, lfloordiv A (.int n) = .ok R ∧
      lheight R = n.toNat * lheight A ∧ lwidth R = lwidth A) := by
  refine ⟨rfl, rfl, ?_, ?_, ?_, ?_⟩
  · intro hn
    simp only [lmul]
    rw [if_pos hn]
  · intro hn
    simp only [lfloordiv]
    rw [if_pos hn]
  · intro hn
    obtain ⟨R, h1, -, h3, h4, -, -, -, -⟩ :=
      lmulGo_spec A hA n.toNat (by omega)
    refine ⟨R, ?_, h3, h4⟩
    simp only [lmul]
    rw [if_neg (by omega), h1]
  · intro hn
    obtain ⟨R, h1, -, h3, h4, -, -, -, -⟩ :=
      lfdivGo_spec A hA n.toNat (by omega)
    refine ⟨R, ?_, h3, h4⟩
    simp only [lfloordiv]
    rw [if_neg (by omega), h1]

/-- Counterexample for C10's "repetition never returns an empty Grid":
a width-0 grid (empty in the spec's sense) repeats to itself. -/
theorem C10_repetition_count_counterexample :
    LGrid.WF ⟨[[]], "left", "top", "", ""⟩ ∧
    lwidth ⟨[[]], "left", "top", "", ""⟩ = 0 ∧
    lmul ⟨[[]], "left", "top", "", ""⟩ (.int 1) =
      .ok ⟨[[]], "left", "top", "", ""⟩ :=
  ⟨by decide, by decide, rfl⟩

/-- Witness for C10 on a 1×1 grid. -/
theorem C10_repetition_count_witness :
    lmul ⟨[['a']], "left", "top", " ", " "⟩ .nonInt =
      .error "ValueError: n has to be an integer" ∧
    ∃ R, lmul ⟨[['a']], "left", "top", " ", " "⟩ (.int 2) = .ok R ∧
      lheight R = 1 := by
  obtain ⟨h1, -, -, -, h5, -⟩ :=
    C10_repetition_count ⟨[['a']], "left", "top", " ", " "⟩ (by decide) 2
  obtain ⟨R, r1, r2, -⟩ := h5 (by decide)
  refine ⟨h1, R, r1, ?_⟩
  rw [r2]
  rfl

end Claims

